import Mathlib

/-!
# go-howistart: the multi-provider weather aggregator

A shallow embedding of `main.go`:

* `Float64` : the values of Go's `float64` (IEEE 754 binary64) with the three
  operations the program uses: `+`, `/` and the conversion `float64(int)`,
  all rounding to nearest, ties to even;
* `SplitN` : `strings.SplitN`, used by the handler to extract the city;
* `openWeatherMap.temperature`, `weatherUnderground.temperature`,
  `multiWeatherProvider.temperature`, `getWeather` : the program itself, with
  the outside world (HTTP, JSON decoding, logging) passed explicitly.

The theorems marked `C1` to `C10` state what the program does; those on the
order of the providers (`C3`) rest on a rounding-error analysis of `Float64`
against the rationals (`Float64.toRat`).
-/

namespace Howistart

set_option maxRecDepth 100000
set_option exponentiation.threshold 4000

/-! ## float64 -/

/-- A `float64` value: a NaN (all NaNs are identified), an infinity, or the
finite number `±m·2^e`; `neg` is the sign bit, so there are two zeros.
Finite values use the canonical encoding described by `Float64.WF`. -/
inductive Float64 where
  | nan : Float64
  | inf (neg : Bool) : Float64
  | fin (neg : Bool) (m : Nat) (e : Int) : Float64
  deriving DecidableEq

namespace Float64

/-- Canonical encodings: a 53-bit significand, an exponent in the binary64
range, and a full significand unless the exponent is the smallest one
(subnormals and zeros). -/
def WF : Float64 → Prop
  | nan => True
  | inf _ => True
  | fin _ m e => m < 2 ^ 53 ∧ -1074 ≤ e ∧ e ≤ 971 ∧ (2 ^ 52 ≤ m ∨ e = -1074)

instance WF.decidable : (x : Float64) → Decidable (WF x)
  | nan => isTrue trivial
  | inf _ => isTrue trivial
  | fin _ m e =>
    inferInstanceAs (Decidable (m < 2 ^ 53 ∧ -1074 ≤ e ∧ e ≤ 971 ∧ (2 ^ 52 ≤ m ∨ e = -1074)))

/-- Quotient `n / d` rounded to the nearest integer, ties to even. -/
def rne (n d : Nat) : Nat :=
  let q := n / d
  let r := n % d
  if 2 * r < d then q
  else if d < 2 * r then q + 1
  else if q % 2 = 0 then q else q + 1

/-- Position of the highest set bit (0 for `n < 2`); `fuel` bounds the recursion. -/
def log2Aux : Nat → Nat → Nat
  | 0, _ => 0
  | fuel + 1, n => if n < 2 then 0 else log2Aux fuel (n / 2) + 1

/-- Floor of the binary logarithm. -/
def log2 (n : Nat) : Nat := log2Aux n n

/-- Exponent of the last significand bit for the positive rational `n / d`:
`⌊log₂ (n / d)⌋ - 52`, but never below `-1074` (the subnormal range). -/
def ulpExp (n d : Nat) : Int :=
  let l : Int := (log2 n : Int) - (log2 d : Int)
  let fl : Int := if d * 2 ^ l.toNat ≤ n * 2 ^ (-l).toNat then l else l - 1
  max (fl - 52) (-1074)

/-- The rational `±(n / d)`, `d > 0`, rounded to the nearest binary64 value,
ties to even; overflows to an infinity, underflows to a signed zero. -/
def round (neg : Bool) (n d : Nat) : Float64 :=
  if n = 0 then fin neg 0 (-1074)
  else
    let ex := ulpExp n d
    let m := rne (n * 2 ^ (-ex).toNat) (d * 2 ^ ex.toNat)
    let (m, ex) := if m = 2 ^ 53 then (2 ^ 52, ex + 1) else (m, ex)
    if 971 < ex then inf neg else fin neg m ex

/-- The constant `0` / `0.0`: positive zero. -/
def zero : Float64 := fin false 0 (-1074)

/-- Go's `x + y` on `float64`. -/
def add : Float64 → Float64 → Float64
  | nan, _ => nan
  | _, nan => nan
  | inf a, inf b => if a = b then inf a else nan
  | inf a, fin _ _ _ => inf a
  | fin _ _ _, inf b => inf b
  | fin s1 m1 e1, fin s2 m2 e2 =>
    let e := min e1 e2
    let a : Int := (if s1 then -1 else 1) * ((m1 * 2 ^ (e1 - e).toNat : Nat) : Int)
    let b : Int := (if s2 then -1 else 1) * ((m2 * 2 ^ (e2 - e).toNat : Nat) : Int)
    let t := a + b
    if t = 0 then fin (s1 && s2) 0 (-1074)
    else round (decide (t < 0)) (t.natAbs * 2 ^ e.toNat) (2 ^ (-e).toNat)

/-- Go's `x / y` on `float64`; dividing by zero does not fail, it yields an
infinity or (for `0 / 0`) a NaN. -/
def div : Float64 → Float64 → Float64
  | nan, _ => nan
  | _, nan => nan
  | inf _, inf _ => nan
  | inf a, fin b _ _ => inf (xor a b)
  | fin a _ _, inf b => fin (xor a b) 0 (-1074)
  | fin s1 m1 e1, fin s2 m2 e2 =>
    if m2 = 0 then (if m1 = 0 then nan else inf (xor s1 s2))
    else round (xor s1 s2) (m1 * 2 ^ (e1 - e2).toNat) (m2 * 2 ^ (e2 - e1).toNat)

/-- Go's `math.IsNaN(x) || math.IsInf(x, 0)`: the values `encoding/json`
refuses to encode. -/
def isNaNOrInf : Float64 → Bool
  | nan => true
  | inf _ => true
  | fin _ _ _ => false

/-- The conversion `float64(i)` of an integer. -/
def ofInt (i : Int) : Float64 := round (decide (i < 0)) i.natAbs 1

/-- The `float64` denoted by a non-negative decimal constant written as the
fraction `n / d` (`273.15` is `ofDecimal 27315 100`). -/
def ofDecimal (n d : Nat) : Float64 := round false n d

/-- The rational number a finite value stands for (`0` for a NaN or an infinity). -/
def toRat : Float64 → ℚ
  | nan => 0
  | inf _ => 0
  | fin s m e => (if s then -1 else 1) * ((m : ℚ) * (2 : ℚ) ^ e)

/-- Whether a value is finite with a clear sign bit. -/
def isNonneg : Float64 → Bool
  | fin false _ _ => true
  | _ => false

/-- Unit roundoff of binary64: `2^-53`, half the gap between `1` and the next value. -/
def unitRoundoff : ℚ := 1 / 2 ^ 53

/-- Half the smallest positive binary64 value: `2^-1075`. -/
def halfSubnormal : ℚ := 1 / 2 ^ 1075

end Float64

/-! ## strings.SplitN -/

/-- Result of `strings.Index(s, sep)`: the position of the first occurrence of
`sep` in `s`, with `none` for Go's `-1`. -/
def Index : List Char → List Char → Option Nat
  | [], sep => if sep.isPrefixOf [] then some 0 else none
  | c :: s, sep =>
    if sep.isPrefixOf (c :: s) then some 0 else (Index s sep).map (· + 1)

/-- Loop of `strings.Count` for a non-empty separator. -/
def countLoop (sep : List Char) : Nat → List Char → Nat
  | 0, _ => 0
  | fuel + 1, s =>
    match Index s sep with
    | none => 0
    | some i => countLoop sep fuel (s.drop (i + sep.length)) + 1

/-- Result of `strings.Count(s, sep)`: the number of non-overlapping
occurrences of `sep`, or the number of code points plus one when `sep` is empty. -/
def Count (s sep : List Char) : Nat :=
  if sep = [] then s.length + 1 else countLoop sep (s.length + 1) s

/-- Result of `explode(s, n)`: `s` cut into code points, at most `n` pieces,
the last piece holding the remainder. -/
def explode (s : List Char) (n : Int) : List (List Char) :=
  let l := s.length
  let n : Nat := if n < 0 ∨ (l : Int) < n then l else n.toNat
  if n = 0 then [] else (s.take (n - 1)).map (fun c => [c]) ++ [s.drop (n - 1)]

/-- The `for i < n` loop of `genSplit`: `k` is the number of cuts still allowed. -/
def genSplitLoop (sep : List Char) (sepSave : Nat) : Nat → List Char → List (List Char)
  | 0, s => [s]
  | k + 1, s =>
    match Index s sep with
    | none => [s]
    | some m => s.take (m + sepSave) :: genSplitLoop sep sepSave k (s.drop (m + sep.length))

/-- Go's `genSplit(s, sep, sepSave, n)` from package `strings`; `len(s)` is the
length in bytes of the UTF-8 encoding. -/
def genSplit (s sep : List Char) (sepSave : Nat) (n : Int) : List (List Char) :=
  if n = 0 then []
  else if sep = [] then explode s n
  else
    let n : Int := if n < 0 then (Count s sep : Int) + 1 else n
    let n : Int := if (String.utf8Len s : Int) + 1 < n then (String.utf8Len s : Int) + 1 else n
    genSplitLoop sep sepSave (n - 1).toNat s

/-- Go's `strings.SplitN(s, sep, n)`. -/
def SplitN (s sep : String) (n : Int) : List String :=
  (genSplit s.data sep.data 0 n).map String.mk

/-! ## The program -/

/-- Go's result pair `(float64, error)`; `none` is the `nil` error. -/
abbrev Result (ε : Type) := Float64 × Option ε

/-- The interface `weatherProvider`: its one method `temperature(city)`, run
against the state `σ` of the outside world. -/
abbrev weatherProvider (σ ε : Type) := String → σ → Result ε × σ

/-- The type `multiWeatherProvider`: a slice of providers. -/
abbrev multiWeatherProvider (σ ε : Type) := List (weatherProvider σ ε)

/-- The struct `weatherData.Main`. -/
structure weatherDataMain where
  Kelvin : Float64
  deriving DecidableEq

/-- The struct `weatherData`. -/
structure weatherData where
  Name : String
  Main : weatherDataMain
  deriving DecidableEq

/-- The struct nested under `current_observation` in `weatherUnderground.temperature`. -/
structure observation where
  Celsius : Float64
  deriving DecidableEq

/-- The anonymous struct `d` of `weatherUnderground.temperature`. -/
structure conditions where
  Observation : observation
  deriving DecidableEq

/-- The struct `openWeatherMap`. -/
structure openWeatherMap where
  apiKey : String
  deriving DecidableEq

/-- The struct `weatherUnderground`. -/
structure weatherUnderground where
  apiKey : String
  deriving DecidableEq

/-- The library calls the program makes, over world states `σ`, errors `ε` and
HTTP responses `β`. -/
structure World (σ ε β : Type) where
  /-- Call of `os.Getenv`. -/
  getenv : String → String
  /-- Call of `http.Get(url)`. -/
  httpGet : String → σ → Except ε β × σ
  /-- Call of `resp.Body.Close()`. -/
  bodyClose : β → σ → σ
  /-- Call of `json.NewDecoder(resp.Body).Decode(&d)` for `d` a `weatherData`. -/
  decodeWeatherData : β → σ → Except ε weatherData × σ
  /-- Call of `json.NewDecoder(resp.Body).Decode(&d)` for `d` the anonymous struct. -/
  decodeConditions : β → σ → Except ε conditions × σ
  /-- Call of `log.Printf(format, city, value)`. -/
  logPrintf : String → String → Float64 → σ → σ

/-- The method `openWeatherMap.temperature`. -/
def openWeatherMap.temperature {σ ε β : Type} (env : World σ ε β) (w : openWeatherMap) :
    weatherProvider σ ε := fun city s =>
  match env.httpGet
      ("http://api.openweathermap.org/data/2.5/weather?APPID=" ++ w.apiKey ++ "&q=" ++ city) s with
  | (.error err, s1) => ((Float64.zero, some err), s1)
  | (.ok resp, s1) =>
    match env.decodeWeatherData resp s1 with
    | (.error err, s2) => ((Float64.zero, some err), env.bodyClose resp s2)
    | (.ok d, s2) =>
      let s3 := env.logPrintf "openWeatherMap: %s: %.2f" city d.Main.Kelvin s2
      ((d.Main.Kelvin, none), env.bodyClose resp s3)

/-- The method `weatherUnderground.temperature`. -/
def weatherUnderground.temperature {σ ε β : Type} (env : World σ ε β) (w : weatherUnderground) :
    weatherProvider σ ε := fun city s =>
  match env.httpGet
      ("http://api.wunderground.com/api/" ++ w.apiKey ++ "/conditions/q/" ++ city ++ ".json") s with
  | (.error err, s1) => ((Float64.zero, some err), s1)
  | (.ok resp, s1) =>
    match env.decodeConditions resp s1 with
    | (.error err, s2) => ((Float64.zero, some err), env.bodyClose resp s2)
    | (.ok d, s2) =>
      let kelvin := Float64.add d.Observation.Celsius (Float64.ofDecimal 27315 100)
      let s3 := env.logPrintf "weatherUnderground: %s: %.2f" city kelvin s2
      ((kelvin, none), env.bodyClose resp s3)

/-- The `for _, provider := range w` loop of `multiWeatherProvider.temperature`:
`.error err` is the early `return 0, err`, `.ok sum` is falling out of the loop. -/
def multiWeatherProvider.rangeLoop {σ ε : Type} (city : String) :
    List (weatherProvider σ ε) → Float64 → σ → Except ε Float64 × σ
  | [], sum, s => (.ok sum, s)
  | provider :: rest, sum, s =>
    match provider city s with
    | ((_, some err), s1) => (.error err, s1)
    | ((k, none), s1) => multiWeatherProvider.rangeLoop city rest (Float64.add sum k) s1

/-- The method `multiWeatherProvider.temperature`. -/
def multiWeatherProvider.temperature {σ ε : Type} (w : multiWeatherProvider σ ε) :
    weatherProvider σ ε := fun city s =>
  match multiWeatherProvider.rangeLoop city w Float64.zero s with
  | (.error err, s1) => ((Float64.zero, some err), s1)
  | (.ok sum, s1) => ((Float64.div sum (Float64.ofInt (w.length : Int)), none), s1)

/-- What a call of the handler `getWeather` does. -/
inductive Response (ε : Type) where
  /-- The run-time panic of an index out of range. -/
  | indexOutOfRange : Response ε
  /-- Reply `http.Error(w, err.Error(), http.StatusInternalServerError)`. -/
  | internalServerError (err : ε) : Response ε
  /-- The JSON object with `city` and `temp` (and the elapsed time `took`). -/
  | json (city : String) (temp : Float64) : Response ε
  /-- Status 200 with an empty body: `Encode` fails on a NaN or infinite `temp`,
  writes nothing, and the handler drops its error. -/
  | emptyBody : Response ε
  deriving DecidableEq

/-- The handler `getWeather`, as a function of the request path `r.URL.Path`. -/
def getWeather {σ ε β : Type} (env : World σ ε β) (path : String) (s : σ) : Response ε × σ :=
  let mw : multiWeatherProvider σ ε :=
    [ openWeatherMap.temperature env ⟨env.getenv "OPEN_WEATHER_KEY"⟩,
      weatherUnderground.temperature env ⟨env.getenv "WUNDERGROUND_KEY"⟩ ]
  match (SplitN path "/" 3)[2]? with
  | none => (.indexOutOfRange, s)
  | some city =>
    match multiWeatherProvider.temperature mw city s with
    | ((_, some err), s1) => (.internalServerError err, s1)
    | ((temp, none), s1) => (if temp.isNaNOrInf then .emptyBody else .json city temp, s1)

/-! ## Observing the calls an aggregator makes -/

/-- Whether the loop ended with the early return. -/
def endedEarly {ε α : Type} : Except ε α → Bool
  | .error _ => true
  | .ok _ => false

/-- One recorded call of a provider: its position in the aggregator, the city
it was given and whether it returned an error. -/
structure Call where
  index : Nat
  city : String
  failed : Bool
  deriving DecidableEq

/-- The provider `p`, made to append a record of each of its calls to a log
kept next to the world state. -/
def recorded {σ ε : Type} (i : Nat) (p : weatherProvider σ ε) :
    weatherProvider (σ × List Call) ε := fun city st =>
  let r := p city st.1
  (r.1, (r.2, st.2 ++ [⟨i, city, r.1.2.isSome⟩]))

/-- Every provider of a sequence recorded under its position, counted from `i`. -/
def recordedFrom {σ ε : Type} (i : Nat) :
    List (weatherProvider σ ε) → List (weatherProvider (σ × List Call) ε)
  | [] => []
  | p :: ps => recorded i p :: recordedFrom (i + 1) ps

/-- The calls `multiWeatherProvider.temperature` makes, in order. -/
def calls {σ ε : Type} (w : multiWeatherProvider σ ε) (city : String) (s : σ) : List Call :=
  (multiWeatherProvider.temperature (recordedFrom 0 w) city (s, [])).2.2

/-- A provider that always returns `k` and never fails. -/
def succeeding {σ ε : Type} (k : Float64) : weatherProvider σ ε :=
  fun _ s => ((k, none), s)

/-- A provider that always fails with `err`, returning `k` next to it. -/
def failing {σ ε : Type} (k : Float64) (err : ε) : weatherProvider σ ε :=
  fun _ s => ((k, some err), s)

/-- A provider over a world that counts the calls made so far: it returns `k`
while fewer than `n` calls have been made and fails with `err` afterwards. -/
def failingAfter {ε : Type} (n : Nat) (k : Float64) (err : ε) : weatherProvider Nat ε :=
  fun _ c => if c < n then ((k, none), c + 1) else ((k, some err), c + 1)

/-- World state reached after the providers `ps` have been called in turn from
the state `s`. -/
def worldAfter {σ ε : Type} (city : String) : List (weatherProvider σ ε) → σ → σ
  | [], s => s
  | p :: ps, s => worldAfter city ps (p city s).2

/-- Whether each provider of `ps`, called in turn from the state `s`, returns
no error. -/
def succeedInTurn {σ ε : Type} (city : String) : List (weatherProvider σ ε) → σ → Bool
  | [], _ => true
  | p :: ps, s => (p city s).1.2.isNone && succeedInTurn city ps (p city s).2

/-- A world in which every fetch succeeds and every response body decodes to
the reading `k`. -/
def steadyWorld (k : Float64) : World Unit String String where
  getenv := fun _ => "key"
  httpGet := fun _ s => (.ok "body", s)
  bodyClose := fun _ s => s
  decodeWeatherData := fun _ s => (.ok ⟨"London", ⟨k⟩⟩, s)
  decodeConditions := fun _ s => (.ok ⟨⟨k⟩⟩, s)
  logPrintf := fun _ _ _ s => s

/-! ## Facts about float64 arithmetic -/

namespace Float64

theorem log2Aux_spec : ∀ (fuel n : Nat), 0 < n → n ≤ fuel →
    2 ^ log2Aux fuel n ≤ n ∧ n < 2 ^ (log2Aux fuel n + 1) := by
  intro fuel
  induction fuel with
  | zero => intro n h1 h2; omega
  | succ f ih =>
    intro n h1 h2
    unfold log2Aux
    by_cases h : n < 2
    · simp [h]; omega
    · simp only [h, if_false]
      have := ih (n / 2) (by omega) (by omega)
      obtain ⟨a, b⟩ := this
      rw [pow_succ] at b
      rw [pow_succ, pow_succ, pow_succ]
      constructor <;> omega

theorem log2_spec (n : Nat) (h : 0 < n) : 2 ^ log2 n ≤ n ∧ n < 2 ^ (log2 n + 1) :=
  log2Aux_spec n n h le_rfl

theorem log2_eq (n k : Nat) (h1 : 2 ^ k ≤ n) (h2 : n < 2 ^ (k + 1)) : log2 n = k := by
  have hn : 0 < n := lt_of_lt_of_le (by positivity) h1
  obtain ⟨a, b⟩ := log2_spec n hn
  have h3 : k < log2 n + 1 := (Nat.pow_lt_pow_iff_right (by norm_num : 1 < 2)).mp (lt_of_le_of_lt h1 b)
  have h4 : log2 n < k + 1 := (Nat.pow_lt_pow_iff_right (by norm_num : 1 < 2)).mp (lt_of_le_of_lt a h2)
  omega

theorem log2_mul_pow (m a : Nat) (hm : 0 < m) : log2 (m * 2 ^ a) = log2 m + a := by
  obtain ⟨h1, h2⟩ := log2_spec m hm
  apply log2_eq
  · rw [pow_add]; exact Nat.mul_le_mul_right _ h1
  · rw [show log2 m + a + 1 = (log2 m + 1) + a by omega, pow_add]
    exact Nat.mul_lt_mul_of_pos_right h2 (by positivity)

theorem log2_pow (b : Nat) : log2 (2 ^ b) = b := by
  apply log2_eq
  · exact le_rfl
  · exact Nat.pow_lt_pow_right (by norm_num) (by omega)

theorem rne_mul_self (m d : Nat) (hd : 0 < d) : rne (m * d) d = m := by
  unfold rne
  simp [Nat.mul_div_cancel _ hd, hd]


theorem ulpExp_exact (m : Nat) (e : Int) (a b : Nat) (hm : 0 < m) (hlt : m < 2 ^ 53)
    (hlo : -1074 ≤ e) (hc : 2 ^ 52 ≤ m ∨ e = -1074) (hab : (a : Int) - b = e) :
    ulpExp (m * 2 ^ a) (2 ^ b) = e := by
  obtain ⟨h1, h2⟩ := log2_spec m hm
  have hL : log2 m ≤ 52 := by
    have := (Nat.pow_lt_pow_iff_right (by norm_num : 1 < 2)).mp (lt_of_le_of_lt h1 hlt)
    omega
  unfold ulpExp
  rw [log2_mul_pow m a hm, log2_pow]
  have hcond : 2 ^ b * 2 ^ (((log2 m + a : Nat) : Int) - (b : Int)).toNat
      ≤ m * 2 ^ a * 2 ^ (-(((log2 m + a : Nat) : Int) - (b : Int))).toNat := by
    rcases le_total (b : Int) ((log2 m + a : Nat) : Int) with h | h
    · have e1 : (((log2 m + a : Nat) : Int) - (b : Int)).toNat = log2 m + a - b := by omega
      have e2 : (-(((log2 m + a : Nat) : Int) - (b : Int))).toNat = 0 := by omega
      rw [e1, e2, ← pow_add, show b + (log2 m + a - b) = log2 m + a by omega, pow_add]
      simp only [pow_zero, mul_one]
      exact Nat.mul_le_mul_right _ h1
    · have e1 : (((log2 m + a : Nat) : Int) - (b : Int)).toNat = 0 := by omega
      have e2 : (-(((log2 m + a : Nat) : Int) - (b : Int))).toNat = b - (log2 m + a) := by omega
      rw [e1, e2, pow_zero, mul_one, mul_assoc, ← pow_add]
      rw [show b = log2 m + (a + (b - (log2 m + a))) by omega, pow_add]
      rw [show a + (log2 m + (a + (b - (log2 m + a))) - (log2 m + a)) = a + (b - (log2 m + a)) by omega]
      exact Nat.mul_le_mul_right _ h1
  simp only [hcond, if_true]
  rcases hc with hc | hc
  · have : log2 m = 52 := log2_eq m 52 hc hlt
    rw [this]
    have : ((52 + a : Nat) : Int) - (b : Int) - 52 = e := by push_cast; omega
    rw [this]
    exact max_eq_left hlo
  · have : ((log2 m + a : Nat) : Int) - (b : Int) - 52 ≤ -1074 := by push_cast; omega
    rw [max_eq_right this, hc]

theorem round_exact (neg : Bool) (m : Nat) (e : Int) (a b : Nat) (hm : 0 < m)
    (hwf : WF (fin neg m e)) (hab : (a : Int) - b = e) :
    round neg (m * 2 ^ a) (2 ^ b) = fin neg m e := by
  obtain ⟨hlt, hlo, hhi, hc⟩ := hwf
  have hn : m * 2 ^ a ≠ 0 := by positivity
  unfold round
  simp only [hn, if_false]
  rw [ulpExp_exact m e a b hm hlt hlo hc hab]
  have hr : rne (m * 2 ^ a * 2 ^ (-e).toNat) (2 ^ b * 2 ^ e.toNat) = m := by
    rw [mul_assoc, ← pow_add, ← pow_add]
    rw [show a + (-e).toNat = b + e.toNat by omega]
    exact rne_mul_self m _ (by positivity)
  rw [hr]
  have h53 : m ≠ 2 ^ 53 := by omega
  simp only [h53, if_false]
  have : ¬ (971 < e) := by omega
  simp [this]


theorem add_comm' (x y : Float64) : add x y = add y x := by
  cases x with
  | nan => cases y <;> rfl
  | inf a =>
    cases y with
    | nan => rfl
    | inf b =>
      simp only [add]
      by_cases h : a = b
      · subst h; simp
      · have h' : ¬ b = a := fun h'' => h h''.symm
        simp [h, h']
    | fin _ _ _ => rfl
  | fin s1 m1 e1 =>
    cases y with
    | nan => rfl
    | inf b => rfl
    | fin s2 m2 e2 =>
      simp only [add]
      rw [min_comm e2 e1, Bool.and_comm s2 s1]
      rw [add_comm ((if s2 = true then (-1 : Int) else 1) * _)]

theorem add_signed_zero (s0 s : Bool) (m : Nat) (e : Int) (hm : 0 < m)
    (hwf : WF (fin s m e)) : add (fin s0 0 (-1074)) (fin s m e) = fin s m e := by
  have hlo : -1074 ≤ e := hwf.2.1
  simp only [add]
  rw [min_eq_left hlo]
  have hp : 0 < m * 2 ^ (e - -1074).toNat := by positivity
  have hp' : (0 : Int) < ((m * 2 ^ (e - -1074).toNat : Nat) : Int) := by exact_mod_cast hp
  cases s
  · have ht : (if s0 = true then (-1 : Int) else 1) * ((0 * 2 ^ (-1074 - -1074 : Int).toNat : Nat) : Int)
        + (if false = true then (-1 : Int) else 1) * ((m * 2 ^ (e - -1074).toNat : Nat) : Int)
        = ((m * 2 ^ (e - -1074).toNat : Nat) : Int) := by simp
    rw [ht]
    have h0 : ¬ (((m * 2 ^ (e - -1074).toNat : Nat) : Int) = 0) := by omega
    have hneg : ¬ (((m * 2 ^ (e - -1074).toNat : Nat) : Int) < 0) := by omega
    simp only [h0, if_false, hneg, decide_False, Int.natAbs_ofNat]
    have h := round_exact false m e ((e - -1074).toNat) 1074 hm hwf (by omega)
    rw [show ((-1074 : Int)).toNat = 0 from rfl, show (-(-1074 : Int)).toNat = 1074 from rfl,
      pow_zero, mul_one]
    exact h
  · have ht : (if s0 = true then (-1 : Int) else 1) * ((0 * 2 ^ (-1074 - -1074 : Int).toNat : Nat) : Int)
        + (if true = true then (-1 : Int) else 1) * ((m * 2 ^ (e - -1074).toNat : Nat) : Int)
        = -((m * 2 ^ (e - -1074).toNat : Nat) : Int) := by simp
    rw [ht]
    have h0 : ¬ (-((m * 2 ^ (e - -1074).toNat : Nat) : Int) = 0) := by omega
    have hneg : (-((m * 2 ^ (e - -1074).toNat : Nat) : Int) < 0) := by omega
    simp only [h0, if_false, hneg, decide_True, Int.natAbs_neg, Int.natAbs_ofNat]
    have h := round_exact true m e ((e - -1074).toNat) 1074 hm hwf (by omega)
    rw [show ((-1074 : Int)).toNat = 0 from rfl, show (-(-1074 : Int)).toNat = 1074 from rfl,
      pow_zero, mul_one]
    exact h

theorem signed_zero_add (s0 : Bool) (x : Float64) (hwf : WF x) (hx : x ≠ fin true 0 (-1074)) :
    add (fin s0 0 (-1074)) x = x := by
  cases x with
  | nan => rfl
  | inf b => rfl
  | fin s m e =>
    rcases Nat.eq_zero_or_pos m with h | h
    · subst h
      obtain ⟨_, _, _, hc⟩ := hwf
      have he : e = -1074 := by
        rcases hc with hc | hc
        · omega
        · exact hc
      subst he
      cases s
      · cases s0 <;> rfl
      · exact absurd rfl hx
    · exact add_signed_zero s0 s m e h hwf

/-- Two canonical values accumulated from `0.0` give the same sum in either order. -/
theorem add_add_zero_comm (x y : Float64) (hx : WF x) (hy : WF y) :
    add (add zero x) y = add (add zero y) x := by
  have hz : ∀ v : Float64, WF v → v ≠ fin true 0 (-1074) → add zero v = v :=
    fun v hv h => signed_zero_add false v hv h
  have hnz : add zero (fin true 0 (-1074)) = zero := rfl
  by_cases h1 : x = fin true 0 (-1074)
  · by_cases h2 : y = fin true 0 (-1074)
    · rw [h1, h2]
    · rw [h1, hnz, hz y hy h2, add_comm' y, signed_zero_add true y hy h2]
  · by_cases h2 : y = fin true 0 (-1074)
    · rw [h2, hnz, hz x hx h1, add_comm' x, signed_zero_add true x hx h1]
    · rw [hz x hx h1, hz y hy h2, add_comm']

/-! ### Rounding error -/



theorem rne_bound (n d : Nat) (hd : 0 < d) :
    2 * (rne n d * d) ≤ 2 * n + d ∧ 2 * n ≤ 2 * (rne n d * d) + d := by
  have h1 := Nat.div_add_mod n d
  have h2 := Nat.mod_lt n hd
  have e1 : (n / d + 1) * d = d * (n / d) + d := by ring
  have e2 : n / d * d = d * (n / d) := by ring
  unfold rne
  simp only []
  split_ifs <;> simp only [e1, e2] <;> omega

theorem two_zpow (z : Int) : (2 : ℚ) ^ z = (2 : ℚ) ^ z.toNat / (2 : ℚ) ^ (-z).toNat := by
  rcases le_total 0 z with h | h
  · have e1 : (-z).toNat = 0 := by omega
    rw [e1, pow_zero, div_one, ← zpow_natCast]
    congr 1
    omega
  · have e1 : z.toNat = 0 := by omega
    rw [e1, pow_zero, one_div, ← zpow_natCast, ← zpow_neg]
    congr 1
    omega






theorem natpow_cast (k : Nat) : (((2 ^ k : Nat) : ℚ)) = (2 : ℚ) ^ (k : Int) := by
  push_cast
  rw [zpow_natCast]

theorem ulpExp_spec (n d : Nat) (hn : 0 < n) (hd : 0 < d) :
    -1074 ≤ ulpExp n d ∧ (n : ℚ) / d < (2 : ℚ) ^ (ulpExp n d + 53) ∧
      (-1074 < ulpExp n d → (2 : ℚ) ^ (ulpExp n d + 52) ≤ (n : ℚ) / d) := by
  obtain ⟨hn1, hn2⟩ := log2_spec n hn
  obtain ⟨hd1, hd2⟩ := log2_spec d hd
  have hdq : (0 : ℚ) < d := by exact_mod_cast hd
  have hn1q : (2 : ℚ) ^ (log2 n : Int) ≤ n := by rw [← natpow_cast]; exact_mod_cast hn1
  have hn2q : (n : ℚ) < (2 : ℚ) ^ ((log2 n : Int) + 1) := by
    have : (n : ℚ) < ((2 ^ (log2 n + 1) : Nat) : ℚ) := by exact_mod_cast hn2
    rw [natpow_cast] at this
    exact_mod_cast this
  have hd1q : (2 : ℚ) ^ (log2 d : Int) ≤ d := by rw [← natpow_cast]; exact_mod_cast hd1
  have hd2q : (d : ℚ) < (2 : ℚ) ^ ((log2 d : Int) + 1) := by
    have : (d : ℚ) < ((2 ^ (log2 d + 1) : Nat) : ℚ) := by exact_mod_cast hd2
    rw [natpow_cast] at this
    exact_mod_cast this
  have h2 : (2 : ℚ) ≠ 0 := two_ne_zero
  -- bounds on the quotient in terms of l
  have hhi : (n : ℚ) / d < (2 : ℚ) ^ ((log2 n : Int) - (log2 d : Int) + 1) := by
    rw [div_lt_iff₀ hdq]
    calc (n : ℚ) < (2 : ℚ) ^ ((log2 n : Int) + 1) := hn2q
      _ = (2 : ℚ) ^ ((log2 n : Int) - (log2 d : Int) + 1) * (2 : ℚ) ^ (log2 d : Int) := by
          rw [← zpow_add₀ h2]; congr 1; ring
      _ ≤ (2 : ℚ) ^ ((log2 n : Int) - (log2 d : Int) + 1) * d :=
          mul_le_mul_of_nonneg_left hd1q (by positivity)
  have hlo : (2 : ℚ) ^ ((log2 n : Int) - (log2 d : Int) - 1) < (n : ℚ) / d := by
    rw [lt_div_iff₀ hdq]
    calc (2 : ℚ) ^ ((log2 n : Int) - (log2 d : Int) - 1) * d
        < (2 : ℚ) ^ ((log2 n : Int) - (log2 d : Int) - 1) * (2 : ℚ) ^ ((log2 d : Int) + 1) :=
          mul_lt_mul_of_pos_left hd2q (by positivity)
      _ = (2 : ℚ) ^ (log2 n : Int) := by rw [← zpow_add₀ h2]; congr 1; ring
      _ ≤ n := hn1q
  -- the comparison made by the code
  have hcond : (d * 2 ^ ((log2 n : Int) - (log2 d : Int)).toNat
        ≤ n * 2 ^ (-((log2 n : Int) - (log2 d : Int))).toNat) ↔
      (2 : ℚ) ^ ((log2 n : Int) - (log2 d : Int)) ≤ (n : ℚ) / d := by
    rw [le_div_iff₀ hdq, two_zpow, div_mul_eq_mul_div, div_le_iff₀ (by positivity)]
    constructor
    · intro h
      have : ((d * 2 ^ ((log2 n : Int) - (log2 d : Int)).toNat : Nat) : ℚ)
          ≤ ((n * 2 ^ (-((log2 n : Int) - (log2 d : Int))).toNat : Nat) : ℚ) := by
        exact_mod_cast h
      push_cast at this
      linarith
    · intro h
      have : ((d * 2 ^ ((log2 n : Int) - (log2 d : Int)).toNat : Nat) : ℚ)
          ≤ ((n * 2 ^ (-((log2 n : Int) - (log2 d : Int))).toNat : Nat) : ℚ) := by
        push_cast
        linarith
      exact_mod_cast this
  -- the floor of the logarithm
  have hfl : ∃ fl : Int, ulpExp n d = max (fl - 52) (-1074) ∧ (2 : ℚ) ^ fl ≤ (n : ℚ) / d ∧
      (n : ℚ) / d < (2 : ℚ) ^ (fl + 1) := by
    unfold ulpExp
    simp only []
    by_cases hc : d * 2 ^ ((log2 n : Int) - (log2 d : Int)).toNat
        ≤ n * 2 ^ (-((log2 n : Int) - (log2 d : Int))).toNat
    · exact ⟨_, by rw [if_pos hc], hcond.mp hc, hhi⟩
    · refine ⟨_, by rw [if_neg hc], le_of_lt hlo, ?_⟩
      have := lt_of_not_le (fun h => hc (hcond.mpr h))
      rw [show (log2 n : Int) - (log2 d : Int) - 1 + 1 = (log2 n : Int) - (log2 d : Int) by ring]
      exact this
  obtain ⟨fl, hex, hfl1, hfl2⟩ := hfl
  rw [hex]
  refine ⟨le_max_right _ _, ?_, ?_⟩
  · refine lt_of_lt_of_le hfl2 (zpow_le_zpow_right₀ (by norm_num) ?_)
    have := le_max_left (fl - 52) (-1074)
    omega
  · intro h
    have : max (fl - 52) (-1074) = fl - 52 := by
      rcases max_choice (fl - 52) (-1074) with h' | h'
      · exact h'
      · rw [h'] at h; exact absurd h (lt_irrefl _)
    rw [this, show fl - 52 + 52 = fl by ring]
    exact hfl1




theorem rne_close (n d : Nat) (hd : 0 < d) :
    (n : ℚ) / d - 1 / 2 ≤ (rne n d : ℚ) ∧ (rne n d : ℚ) ≤ (n : ℚ) / d + 1 / 2 := by
  obtain ⟨h1, h2⟩ := rne_bound n d hd
  have hdq : (0 : ℚ) < d := by exact_mod_cast hd
  have h1q : (2 : ℚ) * ((rne n d : ℚ) * d) ≤ 2 * n + d := by exact_mod_cast h1
  have h2q : (2 : ℚ) * n ≤ 2 * ((rne n d : ℚ) * d) + d := by exact_mod_cast h2
  constructor
  · rw [sub_le_iff_le_add, div_le_iff₀ hdq]
    linarith
  · rw [← sub_le_iff_le_add, le_div_iff₀ hdq]
    linarith

theorem zpow_lt_exp {a b : Int} {x : ℚ} (h1 : (2 : ℚ) ^ a ≤ x) (h2 : x < (2 : ℚ) ^ b) : a < b := by
  by_contra h
  have : (2 : ℚ) ^ b ≤ (2 : ℚ) ^ a := zpow_le_zpow_right₀ (by norm_num) (by omega)
  linarith

/-- Rounding a positive rational below `2^1023` gives a finite value whose
distance from the rational is at most half a unit in the last place. -/
theorem round_spec (neg : Bool) (n d : Nat) (hn : 0 < n) (hd : 0 < d)
    (hx : (n : ℚ) / d < (2 : ℚ) ^ (1023 : Int)) :
    ∃ (m : Nat) (e : Int), round neg n d = fin neg m e ∧ -1074 ≤ e ∧
      (n : ℚ) / d - (2 : ℚ) ^ (ulpExp n d) / 2 ≤ (m : ℚ) * (2 : ℚ) ^ e ∧
      (m : ℚ) * (2 : ℚ) ^ e ≤ (n : ℚ) / d + (2 : ℚ) ^ (ulpExp n d) / 2 ∧
      (m : ℚ) * (2 : ℚ) ^ e
        = (rne (n * 2 ^ (-(ulpExp n d)).toNat) (d * 2 ^ (ulpExp n d).toNat) : ℚ)
            * (2 : ℚ) ^ (ulpExp n d) := by
  obtain ⟨hlo, hhi, hnorm⟩ := ulpExp_spec n d hn hd
  have hdq : (0 : ℚ) < d := by exact_mod_cast hd
  have h2 : (2 : ℚ) ≠ 0 := two_ne_zero
  have hex : ulpExp n d ≤ 970 := by
    by_cases h : -1074 < ulpExp n d
    · have := zpow_lt_exp (hnorm h) hx
      omega
    · omega
  -- the scaled quotient
  have hd' : 0 < d * 2 ^ (ulpExp n d).toNat := by positivity
  have hq : (((n * 2 ^ (-(ulpExp n d)).toNat : Nat) : ℚ)) / ((d * 2 ^ (ulpExp n d).toNat : Nat) : ℚ)
      = (n : ℚ) / d / (2 : ℚ) ^ (ulpExp n d) := by
    rw [two_zpow (ulpExp n d)]
    push_cast
    field_simp
  obtain ⟨hr1, hr2⟩ := rne_close (n * 2 ^ (-(ulpExp n d)).toNat) (d * 2 ^ (ulpExp n d).toNat) hd'
  rw [hq] at hr1 hr2
  have hp : (0 : ℚ) < (2 : ℚ) ^ (ulpExp n d) := by positivity
  have hv1 : (n : ℚ) / d - (2 : ℚ) ^ (ulpExp n d) / 2
      ≤ (rne (n * 2 ^ (-(ulpExp n d)).toNat) (d * 2 ^ (ulpExp n d).toNat) : ℚ)
          * (2 : ℚ) ^ (ulpExp n d) := by
    have := mul_le_mul_of_nonneg_right hr1 (le_of_lt hp)
    have e : ((n : ℚ) / d / (2 : ℚ) ^ (ulpExp n d) - 1 / 2) * (2 : ℚ) ^ (ulpExp n d)
        = (n : ℚ) / d - (2 : ℚ) ^ (ulpExp n d) / 2 := by field_simp; ring
    rw [e] at this
    exact this
  have hv2 : (rne (n * 2 ^ (-(ulpExp n d)).toNat) (d * 2 ^ (ulpExp n d).toNat) : ℚ)
          * (2 : ℚ) ^ (ulpExp n d) ≤ (n : ℚ) / d + (2 : ℚ) ^ (ulpExp n d) / 2 := by
    have := mul_le_mul_of_nonneg_right hr2 (le_of_lt hp)
    have e : ((n : ℚ) / d / (2 : ℚ) ^ (ulpExp n d) + 1 / 2) * (2 : ℚ) ^ (ulpExp n d)
        = (n : ℚ) / d + (2 : ℚ) ^ (ulpExp n d) / 2 := by field_simp; ring
    rw [e] at this
    exact this
  have hn0 : n ≠ 0 := by omega
  unfold round
  simp only [hn0, if_false]
  by_cases hm : rne (n * 2 ^ (-(ulpExp n d)).toNat) (d * 2 ^ (ulpExp n d).toNat) = 2 ^ 53
  · simp only [hm, if_true]
    have hno : ¬ (971 < ulpExp n d + 1) := by omega
    simp only [hno, if_false]
    have hval : (((2 ^ 52 : Nat) : ℚ)) * (2 : ℚ) ^ (ulpExp n d + 1)
        = (((2 ^ 53 : Nat) : ℚ)) * (2 : ℚ) ^ (ulpExp n d) := by
      rw [zpow_add₀ h2]
      push_cast
      ring
    rw [hm] at hv1 hv2
    refine ⟨2 ^ 52, ulpExp n d + 1, rfl, by omega, ?_, ?_, ?_⟩
    · rw [hval]; exact hv1
    · rw [hval]; exact hv2
    · rw [hval]
  · simp only [hm, if_false]
    have hno : ¬ (971 < ulpExp n d) := by omega
    simp only [hno, if_false]
    exact ⟨_, _, rfl, hlo, hv1, hv2, rfl⟩

theorem half_ulp_normal (n d : Nat) (hn : 0 < n) (hd : 0 < d) (h : -1074 < ulpExp n d) :
    (2 : ℚ) ^ (ulpExp n d) / 2 ≤ unitRoundoff * ((n : ℚ) / d) := by
  obtain ⟨_, _, hnorm⟩ := ulpExp_spec n d hn hd
  have h1 := hnorm h
  have e : (2 : ℚ) ^ (ulpExp n d) / 2 = unitRoundoff * (2 : ℚ) ^ (ulpExp n d + 52) := by
    rw [zpow_add₀ (two_ne_zero), unitRoundoff]
    norm_num
    ring
  rw [e]
  exact mul_le_mul_of_nonneg_left h1 (by unfold unitRoundoff; positivity)

theorem half_ulp_subnormal (n d : Nat) (h : ulpExp n d = -1074) :
    (2 : ℚ) ^ (ulpExp n d) / 2 = halfSubnormal := by
  rw [h, halfSubnormal, zpow_neg, zpow_ofNat, show (1075 : Nat) = 1074 + 1 from rfl,
    pow_succ (2 : ℚ) 1074, one_div, mul_inv, div_eq_mul_inv]

/-- Rounding is within the relative error `2^-53`, or within `2^-1075` when
the result is subnormal. -/
theorem round_close (neg : Bool) (n d : Nat) (hn : 0 < n) (hd : 0 < d)
    (hx : (n : ℚ) / d < (2 : ℚ) ^ (1023 : Int)) :
    ∃ (m : Nat) (e : Int), round neg n d = fin neg m e ∧ -1074 ≤ e ∧
      (1 - unitRoundoff) * ((n : ℚ) / d) - halfSubnormal ≤ (m : ℚ) * (2 : ℚ) ^ e ∧
      (m : ℚ) * (2 : ℚ) ^ e ≤ (1 + unitRoundoff) * ((n : ℚ) / d) + halfSubnormal := by
  obtain ⟨m, e, hr, he, h1, h2, _⟩ := round_spec neg n d hn hd hx
  have hxpos : (0 : ℚ) ≤ (n : ℚ) / d := by positivity
  have hu : (0 : ℚ) ≤ unitRoundoff := by unfold unitRoundoff; positivity
  have hh : (0 : ℚ) ≤ halfSubnormal := by unfold halfSubnormal; positivity
  have hux := mul_nonneg hu hxpos
  refine ⟨m, e, hr, he, ?_, ?_⟩
  · by_cases h : -1074 < ulpExp n d
    · have := half_ulp_normal n d hn hd h
      linarith
    · have hex : ulpExp n d = -1074 := by
        have := (ulpExp_spec n d hn hd).1
        omega
      have := half_ulp_subnormal n d hex
      linarith
  · by_cases h : -1074 < ulpExp n d
    · have := half_ulp_normal n d hn hd h
      linarith
    · have hex : ulpExp n d = -1074 := by
        have := (ulpExp_spec n d hn hd).1
        omega
      have := half_ulp_subnormal n d hex
      linarith

/-- Rounding a multiple of `2^-1074` is within the relative error `2^-53`:
in the subnormal range such a rational is a value itself. -/
theorem round_close_grid (neg : Bool) (n d : Nat) (hn : 0 < n) (hd : 0 < d)
    (hx : (n : ℚ) / d < (2 : ℚ) ^ (1023 : Int)) (hgrid : d ∣ n * 2 ^ 1074) :
    ∃ (m : Nat) (e : Int), round neg n d = fin neg m e ∧ -1074 ≤ e ∧
      (1 - unitRoundoff) * ((n : ℚ) / d) ≤ (m : ℚ) * (2 : ℚ) ^ e ∧
      (m : ℚ) * (2 : ℚ) ^ e ≤ (1 + unitRoundoff) * ((n : ℚ) / d) := by
  obtain ⟨m, e, hr, he, h1, h2, hv⟩ := round_spec neg n d hn hd hx
  have hxpos : (0 : ℚ) ≤ (n : ℚ) / d := by positivity
  have hu : (0 : ℚ) ≤ unitRoundoff := by unfold unitRoundoff; positivity
  have hux := mul_nonneg hu hxpos
  have hdq : (0 : ℚ) < d := by exact_mod_cast hd
  refine ⟨m, e, hr, he, ?_, ?_⟩ <;> by_cases h : -1074 < ulpExp n d
  · have := half_ulp_normal n d hn hd h
    linarith
  · have hex : ulpExp n d = -1074 := by
      have := (ulpExp_spec n d hn hd).1
      omega
    obtain ⟨k, hk⟩ := hgrid
    have hexact : (m : ℚ) * (2 : ℚ) ^ e = (n : ℚ) / d := by
      rw [hv, hex]
      have e1 : (-(-1074 : Int)).toNat = 1074 := rfl
      have e2 : ((-1074 : Int)).toNat = 0 := rfl
      rw [e1, e2, pow_zero, mul_one, hk, mul_comm d k, rne_mul_self k d hd]
      have hkq : (n : ℚ) * 2 ^ 1074 = d * k := by exact_mod_cast hk
      rw [zpow_neg, show ((1074 : Int)) = ((1074 : Nat) : Int) from rfl, zpow_natCast,
        eq_div_iff (ne_of_gt hdq)]
      field_simp
      linarith
    rw [hexact]
    linarith
  · have := half_ulp_normal n d hn hd h
    linarith
  · have hex : ulpExp n d = -1074 := by
      have := (ulpExp_spec n d hn hd).1
      omega
    obtain ⟨k, hk⟩ := hgrid
    have hexact : (m : ℚ) * (2 : ℚ) ^ e = (n : ℚ) / d := by
      rw [hv, hex]
      have e1 : (-(-1074 : Int)).toNat = 1074 := rfl
      have e2 : ((-1074 : Int)).toNat = 0 := rfl
      rw [e1, e2, pow_zero, mul_one, hk, mul_comm d k, rne_mul_self k d hd]
      have hkq : (n : ℚ) * 2 ^ 1074 = d * k := by exact_mod_cast hk
      rw [zpow_neg, show ((1074 : Int)) = ((1074 : Nat) : Int) from rfl, zpow_natCast,
        eq_div_iff (ne_of_gt hdq)]
      field_simp
      linarith
    rw [hexact]
    linarith

theorem natpow_toNat_cast (z : Int) (hz : 0 ≤ z) : (((2 ^ z.toNat : Nat) : ℚ)) = (2 : ℚ) ^ z := by
  rw [natpow_cast]
  congr 1
  omega

/-- Sum of two finite values with clear sign bits: finite, sign bit clear, and
within the relative error `2^-53` of the exact sum. -/
theorem add_nonneg_close (m1 m2 : Nat) (e1 e2 : Int) (h1 : -1074 ≤ e1) (h2 : -1074 ≤ e2)
    (hx : (m1 : ℚ) * (2 : ℚ) ^ e1 + (m2 : ℚ) * (2 : ℚ) ^ e2 < (2 : ℚ) ^ (1023 : Int)) :
    ∃ (m : Nat) (e : Int), add (fin false m1 e1) (fin false m2 e2) = fin false m e ∧ -1074 ≤ e ∧
      (1 - unitRoundoff) * ((m1 : ℚ) * (2 : ℚ) ^ e1 + (m2 : ℚ) * (2 : ℚ) ^ e2)
        ≤ (m : ℚ) * (2 : ℚ) ^ e ∧
      (m : ℚ) * (2 : ℚ) ^ e
        ≤ (1 + unitRoundoff) * ((m1 : ℚ) * (2 : ℚ) ^ e1 + (m2 : ℚ) * (2 : ℚ) ^ e2) := by
  have h2' : (2 : ℚ) ≠ 0 := two_ne_zero
  have hmin1 : min e1 e2 ≤ e1 := min_le_left _ _
  have hmin2 : min e1 e2 ≤ e2 := min_le_right _ _
  have hminlo : -1074 ≤ min e1 e2 := le_min h1 h2
  -- the exact sum as a fraction
  have hval : (((m1 * 2 ^ (e1 - min e1 e2).toNat + m2 * 2 ^ (e2 - min e1 e2).toNat : Nat) : ℚ)
        * ((2 ^ (min e1 e2).toNat : Nat) : ℚ)) / ((2 ^ (-(min e1 e2)).toNat : Nat) : ℚ)
      = (m1 : ℚ) * (2 : ℚ) ^ e1 + (m2 : ℚ) * (2 : ℚ) ^ e2 := by
    have ea : (2 : ℚ) ^ e1 = (2 : ℚ) ^ (e1 - min e1 e2) * (2 : ℚ) ^ (min e1 e2) := by
      rw [← zpow_add₀ h2']; congr 1; ring
    have eb : (2 : ℚ) ^ e2 = (2 : ℚ) ^ (e2 - min e1 e2) * (2 : ℚ) ^ (min e1 e2) := by
      rw [← zpow_add₀ h2']; congr 1; ring
    rw [ea, eb, two_zpow (min e1 e2)]
    push_cast
    rw [← natpow_toNat_cast (e1 - min e1 e2) (by omega),
      ← natpow_toNat_cast (e2 - min e1 e2) (by omega)]
    push_cast
    field_simp
    ring
  simp only [add]
  by_cases ht : m1 * 2 ^ (e1 - min e1 e2).toNat + m2 * 2 ^ (e2 - min e1 e2).toNat = 0
  · have hm1 : m1 = 0 := by
      have := Nat.eq_zero_of_add_eq_zero_right ht
      rcases Nat.mul_eq_zero.mp this with h | h
      · exact h
      · exact absurd h (by positivity)
    have hm2 : m2 = 0 := by
      have := Nat.eq_zero_of_add_eq_zero_left ht
      rcases Nat.mul_eq_zero.mp this with h | h
      · exact h
      · exact absurd h (by positivity)
    subst hm1 hm2
    refine ⟨0, -1074, by simp, le_rfl, by simp, by simp⟩
  · have hpos : 0 < m1 * 2 ^ (e1 - min e1 e2).toNat + m2 * 2 ^ (e2 - min e1 e2).toNat := by omega
    have hti : (if false = true then (-1 : Int) else 1)
          * ((m1 * 2 ^ (e1 - min e1 e2).toNat : Nat) : Int)
        + (if false = true then (-1 : Int) else 1)
          * ((m2 * 2 ^ (e2 - min e1 e2).toNat : Nat) : Int)
        = ((m1 * 2 ^ (e1 - min e1 e2).toNat + m2 * 2 ^ (e2 - min e1 e2).toNat : Nat) : Int) := by
      simp
    rw [hti]
    have hne : ¬ (((m1 * 2 ^ (e1 - min e1 e2).toNat + m2 * 2 ^ (e2 - min e1 e2).toNat : Nat) : Int)
        = 0) := by omega
    have hnn : ¬ (((m1 * 2 ^ (e1 - min e1 e2).toNat + m2 * 2 ^ (e2 - min e1 e2).toNat : Nat) : Int)
        < 0) := by omega
    simp only [hne, if_false, hnn, decide_False, Int.natAbs_ofNat]
    have hn : 0 < (m1 * 2 ^ (e1 - min e1 e2).toNat + m2 * 2 ^ (e2 - min e1 e2).toNat)
        * 2 ^ (min e1 e2).toNat := by positivity
    have hd : 0 < 2 ^ (-(min e1 e2)).toNat := by positivity
    have hq : ((((m1 * 2 ^ (e1 - min e1 e2).toNat + m2 * 2 ^ (e2 - min e1 e2).toNat)
          * 2 ^ (min e1 e2).toNat : Nat) : ℚ)) / ((2 ^ (-(min e1 e2)).toNat : Nat) : ℚ)
        = (m1 : ℚ) * (2 : ℚ) ^ e1 + (m2 : ℚ) * (2 : ℚ) ^ e2 := by
      rw [← hval]
      push_cast
      ring
    have hgrid : 2 ^ (-(min e1 e2)).toNat ∣
        (m1 * 2 ^ (e1 - min e1 e2).toNat + m2 * 2 ^ (e2 - min e1 e2).toNat)
          * 2 ^ (min e1 e2).toNat * 2 ^ 1074 :=
      Dvd.dvd.mul_left (pow_dvd_pow 2 (by omega)) _
    have := round_close_grid false _ _ hn hd (by rw [hq]; exact hx) hgrid
    rw [hq] at this
    exact this

/-- Conversion of a count below `2^53` is exact. -/
theorem ofInt_exact (k : Nat) (hk : 0 < k) (hlt : k < 2 ^ 53) :
    ∃ (m : Nat) (e : Int), ofInt (k : Int) = fin false m e ∧ (m : ℚ) * (2 : ℚ) ^ e = k ∧
      m ≠ 0 := by
  have hkq : (0 : ℚ) < k := by exact_mod_cast hk
  have hx1 : ((k : ℚ)) / ((1 : Nat) : ℚ) = k := by simp
  have hltq : (k : ℚ) < (2 : ℚ) ^ (53 : Int) := by
    have : (k : ℚ) < ((2 ^ 53 : Nat) : ℚ) := by exact_mod_cast hlt
    rw [natpow_cast] at this
    exact_mod_cast this
  have hx : ((k : ℚ)) / ((1 : Nat) : ℚ) < (2 : ℚ) ^ (1023 : Int) := by
    rw [hx1]
    exact lt_of_lt_of_le hltq (zpow_le_zpow_right₀ (by norm_num) (by norm_num))
  obtain ⟨m, e, hr, _, _, _, hv⟩ := round_spec false k 1 hk Nat.one_pos hx
  obtain ⟨hlo, _, hnorm⟩ := ulpExp_spec k 1 hk Nat.one_pos
  have hex : ulpExp k 1 ≤ 0 := by
    by_cases h : -1074 < ulpExp k 1
    · have h1 := hnorm h
      rw [hx1] at h1
      have := zpow_lt_exp h1 hltq
      omega
    · omega
  have e0 : (ulpExp k 1).toNat = 0 := by omega
  have hval : (m : ℚ) * (2 : ℚ) ^ e = k := by
    rw [hv, e0, pow_zero, mul_one]
    have := rne_mul_self (k * 2 ^ (-(ulpExp k 1)).toNat) 1 Nat.one_pos
    rw [mul_one] at this
    rw [this]
    have hp : ((2 : ℚ) ^ (-(ulpExp k 1)).toNat) = (2 : ℚ) ^ (-(ulpExp k 1)) := by
      rw [← zpow_natCast]
      congr 1
      omega
    push_cast
    rw [hp, mul_assoc, ← zpow_add₀ (two_ne_zero), neg_add_cancel, zpow_zero, mul_one]
  refine ⟨m, e, ?_, hval, ?_⟩
  · unfold ofInt
    have : decide (((k : Nat) : Int) < 0) = false := by simp
    rw [this, Int.natAbs_ofNat]
    exact hr
  · rintro rfl
    simp at hval
    rw [← hval] at hkq
    exact lt_irrefl _ hkq

/-- Quotient of a finite value with a clear sign bit by a positive one:
finite and within the relative error `2^-53`, or within `2^-1075`, of the
exact quotient. -/
theorem div_nonneg_close (m1 m2 : Nat) (e1 e2 : Int) (hm2 : m2 ≠ 0)
    (hx : ((m1 : ℚ) * (2 : ℚ) ^ e1) / ((m2 : ℚ) * (2 : ℚ) ^ e2) < (2 : ℚ) ^ (1023 : Int)) :
    ∃ (m : Nat) (e : Int), div (fin false m1 e1) (fin false m2 e2) = fin false m e ∧
      (1 - unitRoundoff) * (((m1 : ℚ) * (2 : ℚ) ^ e1) / ((m2 : ℚ) * (2 : ℚ) ^ e2)) - halfSubnormal
        ≤ (m : ℚ) * (2 : ℚ) ^ e ∧
      (m : ℚ) * (2 : ℚ) ^ e
        ≤ (1 + unitRoundoff) * (((m1 : ℚ) * (2 : ℚ) ^ e1) / ((m2 : ℚ) * (2 : ℚ) ^ e2))
          + halfSubnormal := by
  have hh : (0 : ℚ) ≤ halfSubnormal := by unfold halfSubnormal; positivity
  simp only [div, hm2, if_false, Bool.xor_false]
  rcases Nat.eq_zero_or_pos m1 with h0 | hpos
  · subst h0
    refine ⟨0, -1074, by simp [round], ?_, ?_⟩ <;> simp <;> linarith
  · have hm2pos : 0 < m2 := Nat.pos_of_ne_zero hm2
    have hn : 0 < m1 * 2 ^ (e1 - e2).toNat := by positivity
    have hd : 0 < m2 * 2 ^ (e2 - e1).toNat := by positivity
    have hq : (((m1 * 2 ^ (e1 - e2).toNat : Nat) : ℚ)) / ((m2 * 2 ^ (e2 - e1).toNat : Nat) : ℚ)
        = ((m1 : ℚ) * (2 : ℚ) ^ e1) / ((m2 : ℚ) * (2 : ℚ) ^ e2) := by
      have e : (2 : ℚ) ^ e1 = (2 : ℚ) ^ (e1 - e2) * (2 : ℚ) ^ e2 := by
        rw [← zpow_add₀ (two_ne_zero)]; congr 1; ring
      have hm2q : (m2 : ℚ) ≠ 0 := by exact_mod_cast hm2
      have hp : (2 : ℚ) ^ e2 ≠ 0 := by positivity
      rw [e, two_zpow (e1 - e2), show -(e1 - e2) = e2 - e1 by ring]
      push_cast
      field_simp
      ring
    obtain ⟨m, e, hr, _, hlo, hhi⟩ := round_close false _ _ hn hd (by rw [hq]; exact hx)
    rw [hq] at hlo hhi
    exact ⟨m, e, hr, hlo, hhi⟩

/-- A finite value with a clear sign bit and an exponent in range. -/
theorem nonneg_form (x : Float64) (hwf : WF x) (hs : isNonneg x = true) :
    ∃ (m : Nat) (e : Int), x = fin false m e ∧ -1074 ≤ e := by
  cases x with
  | nan => simp [isNonneg] at hs
  | inf b => simp [isNonneg] at hs
  | fin s m e =>
    cases s
    · exact ⟨m, e, rfl, hwf.2.1⟩
    · simp [isNonneg] at hs

theorem toRat_nonneg_form (m : Nat) (e : Int) : toRat (fin false m e) = (m : ℚ) * (2 : ℚ) ^ e := by
  simp [toRat]

theorem unitRoundoff_bounds : (0 : ℚ) ≤ unitRoundoff ∧ unitRoundoff ≤ 1 := by
  unfold unitRoundoff
  constructor
  · positivity
  · rw [div_le_one (by positivity)]
    exact one_le_pow₀ (by norm_num)

/-- Accumulating finite values with clear sign bits: the sum stays finite and
within the factors `(1 ± 2^-53)^n` of the exact sum. -/
theorem foldl_add_close :
    ∀ (ks : List Float64) (acc : Float64),
      (∃ (m : Nat) (e : Int), acc = fin false m e ∧ -1074 ≤ e) →
      (∀ k ∈ ks, ∃ (m : Nat) (e : Int), k = fin false m e ∧ -1074 ≤ e) →
      (1 + unitRoundoff) ^ ks.length * (toRat acc + (ks.map toRat).sum) < (2 : ℚ) ^ (1023 : Int) →
      (∃ (m : Nat) (e : Int), ks.foldl add acc = fin false m e ∧ -1074 ≤ e) ∧
        (1 - unitRoundoff) ^ ks.length * (toRat acc + (ks.map toRat).sum)
          ≤ toRat (ks.foldl add acc) ∧
        toRat (ks.foldl add acc)
          ≤ (1 + unitRoundoff) ^ ks.length * (toRat acc + (ks.map toRat).sum) := by
  obtain ⟨hu0, hu1⟩ := unitRoundoff_bounds
  intro ks
  induction ks with
  | nil =>
    intro acc hacc _ _
    simp
    exact hacc
  | cons k ks ih =>
    intro acc hacc hks hbound
    obtain ⟨m1, e1, rfl, he1⟩ := hacc
    obtain ⟨m2, e2, rfl, he2⟩ := hks k (List.mem_cons_self _ _)
    have hrest : ∀ k' ∈ ks, ∃ (m : Nat) (e : Int), k' = fin false m e ∧ -1074 ≤ e :=
      fun k' hk' => hks k' (List.mem_cons_of_mem _ hk')
    have hR : (0 : ℚ) ≤ (ks.map toRat).sum := by
      apply List.sum_nonneg
      intro x hx
      obtain ⟨k', hk', rfl⟩ := List.mem_map.mp hx
      obtain ⟨m, e, rfl, _⟩ := hrest k' hk'
      rw [toRat_nonneg_form]
      positivity
    simp only [List.map_cons, List.sum_cons, List.length_cons, List.foldl_cons,
      toRat_nonneg_form] at hbound ⊢
    have ha : (0 : ℚ) ≤ (m1 : ℚ) * (2 : ℚ) ^ e1 := by positivity
    have hb : (0 : ℚ) ≤ (m2 : ℚ) * (2 : ℚ) ^ e2 := by positivity
    have hP : (1 : ℚ) ≤ (1 + unitRoundoff) ^ ks.length := one_le_pow₀ (by linarith)
    have hQ : (0 : ℚ) ≤ (1 - unitRoundoff) ^ ks.length := pow_nonneg (by linarith) _
    have htot : (0 : ℚ) ≤ (m1 : ℚ) * (2 : ℚ) ^ e1 + ((m2 : ℚ) * (2 : ℚ) ^ e2 + (ks.map toRat).sum) := by
      linarith
    -- the first addition does not overflow
    have hbig : (1 + unitRoundoff) ^ ks.length * ((1 + unitRoundoff)
          * ((m1 : ℚ) * (2 : ℚ) ^ e1 + ((m2 : ℚ) * (2 : ℚ) ^ e2 + (ks.map toRat).sum)))
        < (2 : ℚ) ^ (1023 : Int) := by
      rw [pow_succ, mul_assoc] at hbound
      exact hbound
    have hstep : (1 + unitRoundoff)
          * ((m1 : ℚ) * (2 : ℚ) ^ e1 + ((m2 : ℚ) * (2 : ℚ) ^ e2 + (ks.map toRat).sum))
        < (2 : ℚ) ^ (1023 : Int) := by
      refine lt_of_le_of_lt ?_ hbig
      have h0 : (0 : ℚ) ≤ (1 + unitRoundoff)
          * ((m1 : ℚ) * (2 : ℚ) ^ e1 + ((m2 : ℚ) * (2 : ℚ) ^ e2 + (ks.map toRat).sum)) :=
        mul_nonneg (by linarith) htot
      exact le_mul_of_one_le_left h0 hP
    have hxab : (m1 : ℚ) * (2 : ℚ) ^ e1 + (m2 : ℚ) * (2 : ℚ) ^ e2 < (2 : ℚ) ^ (1023 : Int) := by
      have := mul_nonneg hu0 htot
      linarith
    obtain ⟨m, e, hadd, he, hlo, hhi⟩ := add_nonneg_close m1 m2 e1 e2 he1 he2 hxab
    rw [hadd]
    -- the accumulator after the first addition, against the exact sum
    have hup : (m : ℚ) * (2 : ℚ) ^ e + (ks.map toRat).sum
        ≤ (1 + unitRoundoff)
          * ((m1 : ℚ) * (2 : ℚ) ^ e1 + ((m2 : ℚ) * (2 : ℚ) ^ e2 + (ks.map toRat).sum)) := by
      have := mul_nonneg hu0 hR
      linarith
    have hdown : (1 - unitRoundoff)
          * ((m1 : ℚ) * (2 : ℚ) ^ e1 + ((m2 : ℚ) * (2 : ℚ) ^ e2 + (ks.map toRat).sum))
        ≤ (m : ℚ) * (2 : ℚ) ^ e + (ks.map toRat).sum := by
      have := mul_nonneg hu0 hR
      linarith
    have hpre : (1 + unitRoundoff) ^ ks.length * (toRat (fin false m e) + (ks.map toRat).sum)
        < (2 : ℚ) ^ (1023 : Int) := by
      rw [toRat_nonneg_form]
      refine lt_of_le_of_lt ?_ hbig
      exact mul_le_mul_of_nonneg_left hup (by linarith)
    obtain ⟨hgood, hl, hh⟩ := ih (fin false m e) ⟨m, e, rfl, he⟩ hrest hpre
    rw [toRat_nonneg_form] at hl hh
    refine ⟨hgood, ?_, ?_⟩
    · refine le_trans ?_ hl
      rw [pow_succ, mul_assoc]
      exact mul_le_mul_of_nonneg_left hdown hQ
    · refine le_trans hh ?_
      rw [pow_succ, mul_assoc]
      exact mul_le_mul_of_nonneg_left hup (by linarith)

theorem one_add_pow_le (u : ℚ) (hu : 0 ≤ u) : ∀ n : Nat, (1 + u) ^ n * (1 - n * u) ≤ 1 := by
  intro n
  induction n with
  | zero => simp
  | succ n ih =>
    have hp : (0 : ℚ) ≤ (1 + u) ^ n := pow_nonneg (by linarith) _
    have hstep : (1 + u) * (1 - ((n + 1 : Nat) : ℚ) * u) ≤ 1 - (n : ℚ) * u := by
      push_cast
      nlinarith [mul_nonneg hu hu, mul_nonneg (Nat.cast_nonneg n : (0 : ℚ) ≤ n) (mul_nonneg hu hu)]
    calc (1 + u) ^ (n + 1) * (1 - ((n + 1 : Nat) : ℚ) * u)
        = (1 + u) ^ n * ((1 + u) * (1 - ((n + 1 : Nat) : ℚ) * u)) := by rw [pow_succ]; ring
      _ ≤ (1 + u) ^ n * (1 - (n : ℚ) * u) := mul_le_mul_of_nonneg_left hstep hp
      _ ≤ 1 := ih

theorem one_add_unitRoundoff_pow_le (n : Nat) (hn : n ≤ 2 ^ 52) :
    (1 + unitRoundoff) ^ n ≤ 2 := by
  obtain ⟨hu0, _⟩ := unitRoundoff_bounds
  have h := one_add_pow_le unitRoundoff hu0 n
  have hp : (0 : ℚ) ≤ (1 + unitRoundoff) ^ n := pow_nonneg (by linarith) _
  have hnu : (n : ℚ) * unitRoundoff ≤ 1 / 2 := by
    have hnq : (n : ℚ) ≤ 2 ^ 52 := by exact_mod_cast hn
    unfold unitRoundoff
    rw [mul_one_div, div_le_div_iff₀ (by positivity) (by norm_num)]
    calc (n : ℚ) * 2 ≤ 2 ^ 52 * 2 := by linarith
      _ = 1 * 2 ^ 53 := by norm_num
  nlinarith [mul_le_mul_of_nonneg_left (show (1 : ℚ) / 2 ≤ 1 - (n : ℚ) * unitRoundoff by linarith) hp]


theorem sum_toRat_nonneg (ks : List Float64)
    (hform : ∀ k ∈ ks, ∃ (m : Nat) (e : Int), k = fin false m e ∧ -1074 ≤ e) :
    (0 : ℚ) ≤ (ks.map toRat).sum := by
  apply List.sum_nonneg
  intro x hx
  obtain ⟨k', hk', rfl⟩ := List.mem_map.mp hx
  obtain ⟨m, e, rfl, _⟩ := hform k' hk'
  rw [toRat_nonneg_form]
  positivity

/-- The mean computed by the loop for finite values with clear sign bits whose
exact total is below `2^1022`: finite, and within the factors
`(1 ± 2^-53)^(n+1)`, give or take `2^-1075`, of the exact mean. -/
theorem mean_close (ks : List Float64) (hk : ∀ k ∈ ks, WF k ∧ isNonneg k = true)
    (hN0 : 0 < ks.length) (hN : ks.length ≤ 2 ^ 52)
    (hS : (ks.map toRat).sum < (2 : ℚ) ^ (1022 : Int)) :
    ∃ (m : Nat) (e : Int),
      div (ks.foldl add zero) (ofInt (ks.length : Int)) = fin false m e ∧
      (1 - unitRoundoff) ^ (ks.length + 1) * ((ks.map toRat).sum / ks.length) - halfSubnormal
        ≤ (m : ℚ) * (2 : ℚ) ^ e ∧
      (m : ℚ) * (2 : ℚ) ^ e
        ≤ (1 + unitRoundoff) ^ (ks.length + 1) * ((ks.map toRat).sum / ks.length)
          + halfSubnormal := by
  obtain ⟨hu0, hu1⟩ := unitRoundoff_bounds
  have hform : ∀ k ∈ ks, ∃ (m : Nat) (e : Int), k = fin false m e ∧ -1074 ≤ e :=
    fun k hk' => nonneg_form k (hk k hk').1 (hk k hk').2
  have hSnn : (0 : ℚ) ≤ (ks.map toRat).sum := sum_toRat_nonneg ks hform
  have hz : toRat zero = 0 := by simp [toRat, zero]
  have hP2 := one_add_unitRoundoff_pow_le ks.length hN
  have hpow : ((2 : ℚ) ^ (1023 : Int)) = 2 * (2 : ℚ) ^ (1022 : Int) := by
    rw [show (1023 : Int) = 1 + 1022 from rfl, zpow_add₀ (two_ne_zero), zpow_one]
  have hsum_lt : (1 + unitRoundoff) ^ ks.length * (toRat zero + (ks.map toRat).sum)
      < (2 : ℚ) ^ (1023 : Int) := by
    rw [hz, zero_add, hpow]
    calc (1 + unitRoundoff) ^ ks.length * (ks.map toRat).sum
        ≤ 2 * (ks.map toRat).sum := mul_le_mul_of_nonneg_right hP2 hSnn
      _ < 2 * (2 : ℚ) ^ (1022 : Int) := mul_lt_mul_of_pos_left hS (by norm_num)
  obtain ⟨⟨ms, es, hsum, _⟩, hlo, hhi⟩ :=
    foldl_add_close ks zero ⟨0, -1074, rfl, le_rfl⟩ hform hsum_lt
  rw [hsum, toRat_nonneg_form, hz, zero_add] at hlo hhi
  obtain ⟨mn, en, hcount, hval, hmn⟩ :=
    ofInt_exact ks.length hN0 (lt_of_le_of_lt hN (by norm_num))
  have hNq : (1 : ℚ) ≤ (ks.length : ℚ) := by exact_mod_cast hN0
  have hNpos : (0 : ℚ) < (ks.length : ℚ) := lt_of_lt_of_le one_pos hNq
  have hsnn : (0 : ℚ) ≤ (ms : ℚ) * (2 : ℚ) ^ es := by positivity
  have hx : ((ms : ℚ) * (2 : ℚ) ^ es) / ((mn : ℚ) * (2 : ℚ) ^ en) < (2 : ℚ) ^ (1023 : Int) := by
    rw [hval]
    have h1 : ((ms : ℚ) * (2 : ℚ) ^ es) / (ks.length : ℚ) ≤ (ms : ℚ) * (2 : ℚ) ^ es :=
      div_le_self hsnn hNq
    have h2 : (ms : ℚ) * (2 : ℚ) ^ es < (2 : ℚ) ^ (1023 : Int) := by
      rw [hz, zero_add] at hsum_lt
      exact lt_of_le_of_lt hhi hsum_lt
    exact lt_of_le_of_lt h1 h2
  obtain ⟨m, e, hdiv, hdlo, hdhi⟩ := div_nonneg_close ms mn es en hmn hx
  rw [hval] at hdlo hdhi
  rw [hsum, hcount]
  refine ⟨m, e, hdiv, le_trans ?_ hdlo, le_trans hdhi ?_⟩
  · have h1 : (1 - unitRoundoff) ^ ks.length * (ks.map toRat).sum / (ks.length : ℚ)
        ≤ (ms : ℚ) * (2 : ℚ) ^ es / (ks.length : ℚ) :=
      div_le_div_of_nonneg_right hlo (le_of_lt hNpos)
    have h2 := mul_le_mul_of_nonneg_left h1 (sub_nonneg.mpr hu1)
    have e1 : (1 - unitRoundoff) ^ (ks.length + 1) * ((ks.map toRat).sum / ks.length)
        = (1 - unitRoundoff)
          * ((1 - unitRoundoff) ^ ks.length * (ks.map toRat).sum / (ks.length : ℚ)) := by
      rw [pow_succ]; ring
    rw [e1]
    exact sub_le_sub_right h2 _
  · have h1 : (ms : ℚ) * (2 : ℚ) ^ es / (ks.length : ℚ)
        ≤ (1 + unitRoundoff) ^ ks.length * (ks.map toRat).sum / (ks.length : ℚ) :=
      div_le_div_of_nonneg_right hhi (le_of_lt hNpos)
    have h2 := mul_le_mul_of_nonneg_left h1 (add_nonneg zero_le_one hu0)
    have e1 : (1 + unitRoundoff) ^ (ks.length + 1) * ((ks.map toRat).sum / ks.length)
        = (1 + unitRoundoff)
          * ((1 + unitRoundoff) ^ ks.length * (ks.map toRat).sum / (ks.length : ℚ)) := by
      rw [pow_succ]; ring
    rw [e1]
    exact add_le_add_right h2 _

end Float64

/-! ## The aggregator -/

open Float64

/-- The loop adds up the values of providers that all succeed. -/
theorem rangeLoop_ok {σ ε : Type} (city : String) (ps : List (weatherProvider σ ε))
    (ks : List Float64)
    (h : List.Forall₂ (fun p k => ∀ s, (p city s).1 = (k, none)) ps ks) :
    ∀ (acc : Float64) (s : σ),
      (multiWeatherProvider.rangeLoop city ps acc s).1 = .ok (ks.foldl add acc) := by
  induction h with
  | nil => intro acc s; rfl
  | @cons p k ps ks hp _ ih =>
    intro acc s
    have hp' := hp s
    rcases hr : p city s with ⟨⟨k', oe⟩, s1⟩
    rw [hr] at hp'
    simp only [Prod.mk.injEq] at hp'
    obtain ⟨rfl, rfl⟩ := hp'
    simp only [multiWeatherProvider.rangeLoop, hr, List.foldl_cons]
    exact ih _ _

/-- The loop stops at the first provider that fails when called in turn. -/
theorem rangeLoop_error {σ ε : Type} (city : String) (post : List (weatherProvider σ ε))
    (p : weatherProvider σ ε) (err : ε) :
    ∀ (pre : List (weatherProvider σ ε)) (acc : Float64) (s : σ),
      succeedInTurn city pre s = true →
      (p city (worldAfter city pre s)).1.2 = some err →
      (multiWeatherProvider.rangeLoop city (pre ++ p :: post) acc s).1 = .error err := by
  intro pre
  induction pre with
  | nil =>
    intro acc s _ hp
    simp only [worldAfter] at hp
    rcases hr : p city s with ⟨⟨k', oe⟩, s1⟩
    rw [hr] at hp
    simp only at hp
    subst hp
    simp only [List.nil_append, multiWeatherProvider.rangeLoop, hr]
  | cons q pre ih =>
    intro acc s hpre hp
    simp only [succeedInTurn, Bool.and_eq_true, Option.isNone_iff_eq_none] at hpre
    simp only [worldAfter] at hp
    obtain ⟨hq, hrest⟩ := hpre
    rcases hr : q city s with ⟨⟨k', oe⟩, s1⟩
    rw [hr] at hq hrest hp
    simp only at hq hrest hp
    subst hq
    simp only [List.cons_append, multiWeatherProvider.rangeLoop, hr]
    exact ih _ _ hrest hp

/-- When not every provider succeeds in turn, one of them is the first to fail. -/
theorem exists_first_failure {σ ε : Type} (city : String) :
    ∀ (w : List (weatherProvider σ ε)) (s : σ), succeedInTurn city w s = false →
      ∃ (pre post : List (weatherProvider σ ε)) (p : weatherProvider σ ε) (err : ε),
        w = pre ++ p :: post ∧ succeedInTurn city pre s = true ∧
          (p city (worldAfter city pre s)).1.2 = some err := by
  intro w
  induction w with
  | nil => intro s h; simp [succeedInTurn] at h
  | cons q w ih =>
    intro s h
    cases hq : (q city s).1.2 with
    | some err => exact ⟨[], w, q, err, rfl, rfl, hq⟩
    | none =>
      have h' : succeedInTurn city w (q city s).2 = false := by
        simpa [succeedInTurn, hq] using h
      obtain ⟨pre, post, p, err, hw, hpre, hp⟩ := ih _ h'
      refine ⟨q :: pre, post, p, err, by rw [hw]; rfl, ?_, hp⟩
      simp [succeedInTurn, hq, hpre]

/-- Result of the aggregator over providers that all succeed. -/
theorem temperature_ok {σ ε : Type} (city : String) (ps : List (weatherProvider σ ε))
    (ks : List Float64)
    (h : List.Forall₂ (fun p k => ∀ s, (p city s).1 = (k, none)) ps ks) (s : σ) :
    (multiWeatherProvider.temperature ps city s).1
      = (div (ks.foldl add zero) (ofInt (ks.length : Int)), none) := by
  have h1 := rangeLoop_ok city ps ks h zero s
  have hl : ps.length = ks.length := h.length_eq
  unfold multiWeatherProvider.temperature
  rcases hr : multiWeatherProvider.rangeLoop city ps zero s with ⟨r, s1⟩
  rw [hr] at h1
  simp only at h1
  subst h1
  simp only [hl]

/-- Run of the loop over recorded providers: the result and the world are those
of the plain run, and the log grows by one record per provider of an initial
segment, the last of which is the only one that can have failed. -/
theorem rangeLoop_recorded {σ ε : Type} (city : String) :
    ∀ (ps : List (weatherProvider σ ε)) (i : Nat) (acc : Float64) (s : σ) (log : List Call),
      ∃ n, n ≤ ps.length ∧
        multiWeatherProvider.rangeLoop city (recordedFrom i ps) acc (s, log)
          = ((multiWeatherProvider.rangeLoop city ps acc s).1,
             ((multiWeatherProvider.rangeLoop city ps acc s).2,
              log ++ (List.range' i n).map (fun j => Call.mk j city
                (decide (j + 1 = i + n)
                  && endedEarly (multiWeatherProvider.rangeLoop city ps acc s).1)))) ∧
        (endedEarly (multiWeatherProvider.rangeLoop city ps acc s).1 = false → n = ps.length) ∧
        (endedEarly (multiWeatherProvider.rangeLoop city ps acc s).1 = true → 0 < n) := by
  intro ps
  induction ps with
  | nil =>
    intro i acc s log
    exact ⟨0, le_rfl, by simp [recordedFrom, multiWeatherProvider.rangeLoop], fun _ => rfl,
      fun h => by simp [multiWeatherProvider.rangeLoop, endedEarly] at h⟩
  | cons p ps ih =>
    intro i acc s log
    rcases hr : p city s with ⟨⟨k, oe⟩, s1⟩
    cases oe with
    | some err =>
      refine ⟨1, by simp, ?_, ?_, fun _ => Nat.one_pos⟩
      · simp [recordedFrom, recorded, multiWeatherProvider.rangeLoop, hr, endedEarly]
      · intro h
        simp [multiWeatherProvider.rangeLoop, hr, endedEarly] at h
    | none =>
      obtain ⟨n, hn, heq, hall, hpos⟩ := ih (i + 1) (add acc k) s1 (log ++ [⟨i, city, false⟩])
      refine ⟨n + 1, by simpa using hn, ?_, ?_, fun _ => Nat.succ_pos _⟩
      · simp only [recordedFrom, recorded, multiWeatherProvider.rangeLoop, hr, Option.isSome_none]
        rw [heq]
        have hi : i + 1 + n = i + (n + 1) := by omega
        have hfirst : (decide (i + 1 = i + (n + 1))
            && endedEarly (multiWeatherProvider.rangeLoop city ps (add acc k) s1).1) = false := by
          cases hb : endedEarly (multiWeatherProvider.rangeLoop city ps (add acc k) s1).1 with
          | false => simp
          | true =>
            have := hpos hb
            simp only [Bool.and_true, decide_eq_false_iff_not]
            omega
        simp only [List.range'_succ, List.map_cons, hi, hfirst, List.append_assoc,
          List.singleton_append]
      · intro h
        simp only [multiWeatherProvider.rangeLoop, hr] at h
        rw [hall h]
        rfl

/-- Calls of the aggregator: providers `0 .. n-1` in order, each with the city
the aggregator received; only the last call can have failed, and it has failed
exactly when the aggregator returns an error; without an error every provider
is called. -/
theorem calls_spec {σ ε : Type} (w : multiWeatherProvider σ ε) (city : String) (s : σ) :
    ∃ n, n ≤ w.length ∧
      calls w city s = (List.range n).map (fun j => Call.mk j city
        (decide (j + 1 = n) && (multiWeatherProvider.temperature w city s).1.2.isSome)) ∧
      ((multiWeatherProvider.temperature w city s).1.2 = none → n = w.length) ∧
      ((multiWeatherProvider.temperature w city s).1.2 ≠ none → 0 < n) := by
  obtain ⟨n, hn, heq, hall, hpos⟩ := rangeLoop_recorded city w 0 zero s []
  refine ⟨n, hn, ?_, ?_, ?_⟩
  · unfold calls multiWeatherProvider.temperature
    rw [heq]
    rcases hr : multiWeatherProvider.rangeLoop city w zero s with ⟨r, s1⟩
    cases r <;> simp [endedEarly, List.range_eq_range']
  · intro h
    apply hall
    unfold multiWeatherProvider.temperature at h
    rcases hr : multiWeatherProvider.rangeLoop city w zero s with ⟨r, s1⟩
    rw [hr] at h
    cases r <;> simp [endedEarly] at h ⊢
  · intro h
    apply hpos
    unfold multiWeatherProvider.temperature at h
    rcases hr : multiWeatherProvider.rangeLoop city w zero s with ⟨r, s1⟩
    rw [hr] at h
    cases r <;> simp [endedEarly] at h ⊢

/-- Log of the loop over recorded providers when a provider that always fails
comes after providers that always succeed. -/
theorem rangeLoop_recorded_error {σ ε : Type} (city : String)
    (pre post : List (weatherProvider σ ε)) (p : weatherProvider σ ε)
    (hpre : ∀ q ∈ pre, ∀ s, (q city s).1.2 = none)
    (hp : ∀ s, (p city s).1.2 ≠ none) :
    ∀ (i : Nat) (acc : Float64) (s : σ) (log : List Call),
      (multiWeatherProvider.rangeLoop city (recordedFrom i (pre ++ p :: post)) acc (s, log)).2.2
        = log ++ (List.range' i (pre.length + 1)).map
            (fun j => Call.mk j city (decide (j = i + pre.length))) := by
  induction pre with
  | nil =>
    intro i acc s log
    have hp' := hp s
    rcases hr : p city s with ⟨⟨k', oe⟩, s1⟩
    rw [hr] at hp'
    cases oe with
    | none => exact absurd rfl hp'
    | some err =>
      simp [recordedFrom, recorded, multiWeatherProvider.rangeLoop, hr]
  | cons q pre ih =>
    intro i acc s log
    have hq := hpre q (List.mem_cons_self _ _) s
    rcases hr : q city s with ⟨⟨k', oe⟩, s1⟩
    rw [hr] at hq
    simp only at hq
    subst hq
    simp only [List.cons_append, recordedFrom, recorded, multiWeatherProvider.rangeLoop, hr,
      Option.isSome_none, List.append_eq]
    rw [ih (fun q' hq' => hpre q' (List.mem_cons_of_mem _ hq'))]
    have hi : i + 1 + pre.length = i + (pre.length + 1) := by omega
    have hne : ¬ (i = i + (pre.length + 1)) := by omega
    simp only [List.length_cons, List.range'_succ, List.map_cons, hi, hne, decide_False,
      List.append_assoc, List.singleton_append]

/-- Log of the loop over recorded providers that all always succeed. -/
theorem rangeLoop_recorded_ok {σ ε : Type} (city : String) :
    ∀ (ps : List (weatherProvider σ ε)), (∀ q ∈ ps, ∀ s, (q city s).1.2 = none) →
    ∀ (i : Nat) (acc : Float64) (s : σ) (log : List Call),
      (multiWeatherProvider.rangeLoop city (recordedFrom i ps) acc (s, log)).2.2
        = log ++ (List.range' i ps.length).map (fun j => Call.mk j city false) := by
  intro ps
  induction ps with
  | nil => intro _ i acc s log; simp [recordedFrom, multiWeatherProvider.rangeLoop]
  | cons q ps ih =>
    intro hall i acc s log
    have hq := hall q (List.mem_cons_self _ _) s
    rcases hr : q city s with ⟨⟨k', oe⟩, s1⟩
    rw [hr] at hq
    simp only at hq
    subst hq
    simp only [recordedFrom, recorded, multiWeatherProvider.rangeLoop, hr, Option.isSome_none]
    rw [ih (fun q' hq' => hall q' (List.mem_cons_of_mem _ hq'))]
    simp only [List.length_cons, List.range'_succ, List.map_cons, List.append_assoc,
      List.singleton_append]

/-- The log of the aggregator is the log of its loop. -/
theorem calls_eq_loop {σ ε : Type} (w : multiWeatherProvider σ ε) (city : String) (s : σ) :
    calls w city s
      = (multiWeatherProvider.rangeLoop city (recordedFrom 0 w) zero (s, [])).2.2 := by
  unfold calls multiWeatherProvider.temperature
  rcases multiWeatherProvider.rangeLoop city (recordedFrom 0 w) zero (s, []) with ⟨r, s1⟩
  cases r <;> rfl

/-- A permutation of at most two providers with fixed canonical values has the
same accumulated sum divided by the same count. -/
theorem mean_perm_le_two (ks ks' : List Float64) (hperm : ks'.Perm ks) (hlen : ks.length ≤ 2)
    (hwf : ∀ k ∈ ks, WF k) :
    div (ks'.foldl add zero) (ofInt (ks'.length : Int))
      = div (ks.foldl add zero) (ofInt (ks.length : Int)) := by
  match ks, hlen, hwf, hperm with
  | [], _, _, hperm => rw [List.perm_nil.mp hperm]
  | [a], _, _, hperm => rw [List.perm_singleton.mp hperm]
  | [a, b], _, hwf, hperm =>
    have hl := hperm.length_eq
    match ks', hperm, hl with
    | [c, d], hperm, _ =>
      have ha : WF a := hwf a (by simp)
      have hb : WF b := hwf b (by simp)
      have hc : c = a ∨ c = b := by
        have := hperm.subset (List.mem_cons_self c [d])
        simpa using this
      rcases hc with rfl | rfl
      · have := List.perm_singleton.mp (List.Perm.cons_inv hperm)
        rw [this]
      · have h2 : List.Perm [c, d] [c, a] := hperm.trans (List.Perm.swap c a [])
        have hd : d = a := by simpa using List.perm_singleton.mp (List.Perm.cons_inv h2)
        subst hd
        simp only [List.foldl_cons, List.foldl_nil, List.length_cons, List.length_nil]
        rw [add_add_zero_comm c d hb ha]

/-- The sum `0.0 + 300.0 + 310.0` divided by `float64(2)` is `305.0`. -/
theorem mean_300_310 :
    div ([ofDecimal 300 1, ofDecimal 310 1].foldl add zero) (ofInt ((2 : Nat) : Int))
      = ofDecimal 305 1 := by decide

/-- C1: when every provider of the aggregator succeeds, provider `i` with the
Kelvin value `ks[i]`, `multiWeatherProvider.temperature(city)` returns no error
and the sum of the values, accumulated in order from `0.0` with `float64`
addition, divided by the `float64` count of providers; two providers returning
`300.0` and `310.0` give `305.0`. -/
theorem temperature_mean {σ ε : Type} (w : multiWeatherProvider σ ε) (ks : List Float64)
    (city : String) (s : σ)
    (h : List.Forall₂ (fun p k => ∀ s', (p city s').1 = (k, none)) w ks) :
    (multiWeatherProvider.temperature w city s).1
        = (div (ks.foldl add zero) (ofInt (ks.length : Int)), none) ∧
      (ks = [ofDecimal 300 1, ofDecimal 310 1] →
        (multiWeatherProvider.temperature w city s).1 = (ofDecimal 305 1, none)) := by
  refine ⟨temperature_ok city w ks h s, ?_⟩
  intro hks
  rw [temperature_ok city w ks h s, hks]
  exact congrArg (fun v => (v, (none : Option ε))) mean_300_310

theorem temperature_mean_witness :
    List.Forall₂ (fun p k => ∀ s', (p "london" s').1 = (k, (none : Option String)))
        [@succeeding Unit String (ofDecimal 300 1), succeeding (ofDecimal 310 1)]
        [ofDecimal 300 1, ofDecimal 310 1] ∧
      (multiWeatherProvider.temperature
        [@succeeding Unit String (ofDecimal 300 1), succeeding (ofDecimal 310 1)]
        "london" ()).1 = (ofDecimal 305 1, none) :=
  ⟨List.Forall₂.cons (fun _ => rfl) (List.Forall₂.cons (fun _ => rfl) List.Forall₂.nil),
   (temperature_mean _ [ofDecimal 300 1, ofDecimal 310 1] "london" ()
      (List.Forall₂.cons (fun _ => rfl) (List.Forall₂.cons (fun _ => rfl) List.Forall₂.nil))).2
      rfl⟩

/-- C2: in a run of `multiWeatherProvider.temperature(city)`, when a provider
returns the error `err` after every provider before it, called in turn, has
succeeded, the aggregator returns exactly `err`, and the value next to it is
`0`, not the partial sum. Whenever not every provider succeeds in turn there is
such a first failing provider, so the aggregator then returns its error and
`0`. An aggregator of one provider that fails returns that provider's error. -/
theorem temperature_first_error {σ ε : Type} (w : multiWeatherProvider σ ε) (city : String)
    (s : σ) :
    (∀ (pre post : List (weatherProvider σ ε)) (p : weatherProvider σ ε) (err : ε),
      w = pre ++ p :: post → succeedInTurn city pre s = true →
      (p city (worldAfter city pre s)).1.2 = some err →
      (multiWeatherProvider.temperature w city s).1 = (zero, some err)) ∧
    (succeedInTurn city w s = false →
      ∃ (pre post : List (weatherProvider σ ε)) (p : weatherProvider σ ε) (err : ε),
        w = pre ++ p :: post ∧ succeedInTurn city pre s = true ∧
          (p city (worldAfter city pre s)).1.2 = some err ∧
          (multiWeatherProvider.temperature w city s).1 = (zero, some err)) ∧
    (∀ (p : weatherProvider σ ε) (err : ε), w = [p] → (p city s).1.2 = some err →
      (multiWeatherProvider.temperature w city s).1 = (zero, some err)) := by
  have key : ∀ (pre post : List (weatherProvider σ ε)) (p : weatherProvider σ ε) (err : ε),
      w = pre ++ p :: post → succeedInTurn city pre s = true →
      (p city (worldAfter city pre s)).1.2 = some err →
      (multiWeatherProvider.temperature w city s).1 = (zero, some err) := by
    intro pre post p err hw hpre hp
    subst hw
    have h1 := rangeLoop_error city post p err pre zero s hpre hp
    unfold multiWeatherProvider.temperature
    rcases hr : multiWeatherProvider.rangeLoop city (pre ++ p :: post) zero s with ⟨res, s1⟩
    rw [hr] at h1
    simp only at h1
    subst h1
    rfl
  refine ⟨key, ?_, ?_⟩
  · intro h
    obtain ⟨pre, post, p, err, hw, hpre, hp⟩ := exists_first_failure city w s h
    exact ⟨pre, post, p, err, hw, hpre, hp, key pre post p err hw hpre hp⟩
  · intro p err hw hp
    exact key [] [] p err hw rfl hp

theorem temperature_first_error_witness :
    succeedInTurn "london" [@failingAfter String 1 (ofDecimal 300 1) "down"] 0 = true ∧
      (@failingAfter String 1 (ofDecimal 310 1) "down" "london"
        (worldAfter "london" [@failingAfter String 1 (ofDecimal 300 1) "down"] 0)).1.2
          = some "down" ∧
      (multiWeatherProvider.temperature
        ([failingAfter 1 (ofDecimal 300 1) "down"]
          ++ failingAfter 1 (ofDecimal 310 1) "down" :: [succeeding (ofDecimal 310 1)])
        "london" 0).1 = (zero, some "down") :=
  ⟨rfl, rfl,
   (temperature_first_error
      ([failingAfter 1 (ofDecimal 300 1) "down"]
          ++ failingAfter 1 (ofDecimal 310 1) "down" :: [succeeding (ofDecimal 310 1)])
      "london" 0).1 [failingAfter 1 (ofDecimal 300 1) "down"] [succeeding (ofDecimal 310 1)]
      (failingAfter 1 (ofDecimal 310 1) "down") "down" rfl rfl rfl⟩

/-- C3 fails, and by more than rounding. Providers returning the largest
finite `float64` and twice `2^969` give `5.992310449541053e307` in that order
and `+Inf` when the largest value comes last; providers returning `1e16`,
`1.0`, `-1e16` give `0` in that order and `0.3333333333333333` when `1.0`
comes last. -/
theorem temperature_order_counterexample :
    List.Perm
        [fin false 4503599627370496 917, fin false 4503599627370496 917,
          fin false 9007199254740991 971]
        [fin false 9007199254740991 971, fin false 4503599627370496 917,
          fin false 4503599627370496 917] ∧
      (@multiWeatherProvider.temperature Unit Unit
        ([fin false 9007199254740991 971, fin false 4503599627370496 917,
          fin false 4503599627370496 917].map succeeding)
        "london" ()).1 = (fin false 6004799503160661 970, none) ∧
      (@multiWeatherProvider.temperature Unit Unit
        ([fin false 4503599627370496 917, fin false 4503599627370496 917,
          fin false 9007199254740991 971].map succeeding)
        "london" ()).1 = (inf false, none) ∧
      List.Perm
        [ofDecimal 10000000000000000 1, fin true 5000000000000000 1, ofDecimal 1 1]
        [ofDecimal 10000000000000000 1, ofDecimal 1 1, fin true 5000000000000000 1] ∧
      (@multiWeatherProvider.temperature Unit Unit
        ([ofDecimal 10000000000000000 1, ofDecimal 1 1, fin true 5000000000000000 1].map
          succeeding)
        "london" ()).1 = (zero, none) ∧
      (@multiWeatherProvider.temperature Unit Unit
        ([ofDecimal 10000000000000000 1, fin true 5000000000000000 1, ofDecimal 1 1].map
          succeeding)
        "london" ()).1 = (fin false 6004799503160661 (-54), none) := by
  have h : ∀ a b c : Float64,
      (@multiWeatherProvider.temperature Unit Unit ([a, b, c].map succeeding) "london" ()).1
        = (div (add (add (add zero a) b) c) (ofInt 3), none) := fun _ _ _ => rfl
  have hz : ∀ x : Float64, WF x → x ≠ fin true 0 (-1074) → add zero x = x :=
    fun x h1 h2 => signed_zero_add false x h1 h2
  refine ⟨by decide, ?_, ?_, by decide, ?_, ?_⟩
  · rw [h, hz _ (by decide) (by decide)]
    decide
  · rw [h, hz _ (by decide) (by decide)]
    decide
  · rw [h, hz _ (by decide) (by decide)]
    decide
  · rw [h, hz _ (by decide) (by decide)]
    decide

/-- C3, amended: for a non-empty sequence of at most `2^52` providers that each
succeed with a fixed finite `float64` Kelvin value whose sign bit is clear, the
exact total of the values being below `2^1022`,
`multiWeatherProvider.temperature(city)` on the sequence and on any permutation
of it returns no error and a finite value between `(1 - 2^-53)^(n+1)` and
`(1 + 2^-53)^(n+1)` times the exact mean, give or take `2^-1075`; the two
results therefore differ by no more than the width of that interval, and for at
most two providers they are the same value. -/
theorem temperature_order_tolerance {σ ε : Type} (w w' : multiWeatherProvider σ ε)
    (ks : List Float64) (city : String) (s s' : σ) (hperm : w'.Perm w)
    (hfix : List.Forall₂ (fun p k => ∀ t, (p city t).1 = (k, none)) w ks)
    (hk : ∀ k ∈ ks, WF k ∧ isNonneg k = true)
    (hN0 : 0 < ks.length) (hN : ks.length ≤ 2 ^ 52)
    (hS : (ks.map toRat).sum < (2 : ℚ) ^ (1022 : Int)) :
    ∃ r r' : Float64,
      (multiWeatherProvider.temperature w city s).1 = (r, none) ∧
      (multiWeatherProvider.temperature w' city s').1 = (r', none) ∧
      isNonneg r = true ∧ isNonneg r' = true ∧
      (1 - unitRoundoff) ^ (ks.length + 1) * ((ks.map toRat).sum / ks.length) - halfSubnormal
        ≤ toRat r ∧
      toRat r ≤ (1 + unitRoundoff) ^ (ks.length + 1) * ((ks.map toRat).sum / ks.length)
        + halfSubnormal ∧
      (1 - unitRoundoff) ^ (ks.length + 1) * ((ks.map toRat).sum / ks.length) - halfSubnormal
        ≤ toRat r' ∧
      toRat r' ≤ (1 + unitRoundoff) ^ (ks.length + 1) * ((ks.map toRat).sum / ks.length)
        + halfSubnormal ∧
      |toRat r' - toRat r|
        ≤ ((1 + unitRoundoff) ^ (ks.length + 1) * ((ks.map toRat).sum / ks.length)
            + halfSubnormal)
          - ((1 - unitRoundoff) ^ (ks.length + 1) * ((ks.map toRat).sum / ks.length)
            - halfSubnormal) ∧
      (ks.length ≤ 2 → r' = r) := by
  obtain ⟨ks', hks', hp⟩ := List.perm_comp_forall₂ hperm hfix
  have hlen : ks'.length = ks.length := hp.length_eq
  have hsum : (ks'.map toRat).sum = (ks.map toRat).sum := (hp.map toRat).sum_eq
  have hk' : ∀ k ∈ ks', WF k ∧ isNonneg k = true := fun k hm => hk k (hp.mem_iff.mp hm)
  obtain ⟨m, e, hr, hlo, hhi⟩ := mean_close ks hk hN0 hN hS
  obtain ⟨m', e', hr', hlo', hhi'⟩ :=
    mean_close ks' hk' (by rw [hlen]; exact hN0) (by rw [hlen]; exact hN) (by rw [hsum]; exact hS)
  rw [hlen, hsum] at hlo' hhi'
  refine ⟨fin false m e, fin false m' e', ?_, ?_, rfl, rfl, ?_, ?_, ?_, ?_, ?_, ?_⟩
  · rw [temperature_ok city w ks hfix s, hr]
  · rw [temperature_ok city w' ks' hks' s', hr']
  · rw [toRat_nonneg_form]; exact hlo
  · rw [toRat_nonneg_form]; exact hhi
  · rw [toRat_nonneg_form]; exact hlo'
  · rw [toRat_nonneg_form]; exact hhi'
  · rw [toRat_nonneg_form, toRat_nonneg_form, abs_sub_le_iff]
    constructor
    · exact sub_le_sub hhi' hlo
    · exact sub_le_sub hhi hlo'
  · intro h2
    have := mean_perm_le_two ks ks' hp h2 (fun k hm => (hk k hm).1)
    rw [hr', hr] at this
    exact this

theorem temperature_order_tolerance_witness :
    (∀ k ∈ [ofDecimal 270 1, ofDecimal 27014 100, ofDecimal 27019 100],
        WF k ∧ isNonneg k = true) ∧
      ([ofDecimal 270 1, ofDecimal 27014 100, ofDecimal 27019 100].map toRat).sum
        < (2 : ℚ) ^ (1022 : Int) ∧
      ∃ r r' : Float64,
        (@multiWeatherProvider.temperature Unit String
          ([ofDecimal 270 1, ofDecimal 27014 100, ofDecimal 27019 100].map succeeding)
          "london" ()).1 = (r, none) ∧
        (@multiWeatherProvider.temperature Unit String
          ([ofDecimal 270 1, ofDecimal 27019 100, ofDecimal 27014 100].map succeeding)
          "london" ()).1 = (r', none) ∧
        |toRat r' - toRat r|
          ≤ ((1 + unitRoundoff) ^ (3 + 1)
                * (([ofDecimal 270 1, ofDecimal 27014 100, ofDecimal 27019 100].map toRat).sum
                    / (3 : Nat))
              + halfSubnormal)
            - ((1 - unitRoundoff) ^ (3 + 1)
                * (([ofDecimal 270 1, ofDecimal 27014 100, ofDecimal 27019 100].map toRat).sum
                    / (3 : Nat))
              - halfSubnormal) := by
  have e1 : ofDecimal 270 1 = fin false 4749890231992320 (-44) := by decide
  have e2 : ofDecimal 27014 100 = fin false 4752353138038538 (-44) := by decide
  have e3 : ofDecimal 27019 100 = fin false 4753232747340759 (-44) := by decide
  have hk : ∀ k ∈ [ofDecimal 270 1, ofDecimal 27014 100, ofDecimal 27019 100],
      WF k ∧ isNonneg k = true := by decide
  have hS : ([ofDecimal 270 1, ofDecimal 27014 100, ofDecimal 27019 100].map toRat).sum
      < (2 : ℚ) ^ (1022 : Int) := by
    have hb : ∀ m : Nat, m ≤ 2 ^ 53 → toRat (fin false m (-44)) ≤ (2 : ℚ) ^ (9 : Int) := by
      intro m hm
      rw [toRat_nonneg_form]
      have hmq : (m : ℚ) ≤ (2 : ℚ) ^ (53 : Int) := by
        have : (m : ℚ) ≤ ((2 ^ 53 : Nat) : ℚ) := by exact_mod_cast hm
        rw [natpow_cast] at this
        exact_mod_cast this
      calc (m : ℚ) * (2 : ℚ) ^ (-44 : Int)
          ≤ (2 : ℚ) ^ (53 : Int) * (2 : ℚ) ^ (-44 : Int) :=
            mul_le_mul_of_nonneg_right hmq (by positivity)
        _ = (2 : ℚ) ^ (9 : Int) := by rw [← zpow_add₀ (two_ne_zero)]; rfl
    have h9 : (2 : ℚ) ^ (9 : Int) + ((2 : ℚ) ^ (9 : Int) + ((2 : ℚ) ^ (9 : Int) + 0))
        < (2 : ℚ) ^ (12 : Int) := by norm_num
    have h12 : (2 : ℚ) ^ (12 : Int) ≤ (2 : ℚ) ^ (1022 : Int) :=
      zpow_le_zpow_right₀ (by norm_num) (by norm_num)
    rw [e1, e2, e3]
    simp only [List.map_cons, List.map_nil, List.sum_cons, List.sum_nil]
    have b1 := hb 4749890231992320 (by norm_num)
    have b2 := hb 4752353138038538 (by norm_num)
    have b3 := hb 4753232747340759 (by norm_num)
    calc toRat (fin false 4749890231992320 (-44)) + (toRat (fin false 4752353138038538 (-44))
          + (toRat (fin false 4753232747340759 (-44)) + 0))
        ≤ (2 : ℚ) ^ (9 : Int) + ((2 : ℚ) ^ (9 : Int) + ((2 : ℚ) ^ (9 : Int) + 0)) :=
          add_le_add b1 (add_le_add b2 (add_le_add b3 le_rfl))
      _ < (2 : ℚ) ^ (12 : Int) := h9
      _ ≤ (2 : ℚ) ^ (1022 : Int) := h12
  refine ⟨hk, hS, ?_⟩
  obtain ⟨r, r', h1, h2, _, _, _, _, _, _, h3, _⟩ :=
    temperature_order_tolerance
      (@List.map Float64 (weatherProvider Unit String) succeeding
        [ofDecimal 270 1, ofDecimal 27014 100, ofDecimal 27019 100])
      (@List.map Float64 (weatherProvider Unit String) succeeding
        [ofDecimal 270 1, ofDecimal 27019 100, ofDecimal 27014 100])
      [ofDecimal 270 1, ofDecimal 27014 100, ofDecimal 27019 100] "london" () ()
      (List.Perm.cons _ (List.Perm.swap _ _ _))
      (List.Forall₂.cons (fun _ => rfl) (List.Forall₂.cons (fun _ => rfl)
        (List.Forall₂.cons (fun _ => rfl) List.Forall₂.nil)))
      hk (by decide) (by norm_num) hS
  exact ⟨r, r', h1, h2, h3⟩

/-- C7: the calls `multiWeatherProvider.temperature(city)` makes are those of
providers `0 .. n-1`, in sequence order, one call each; every call but the
last has succeeded, the last has failed exactly when the aggregator returns an
error, and without an error all providers are called. So when a provider that
always fails comes after providers that always succeed, the calls are those up
to and including it and none after, and when no provider fails every provider
is called. -/
theorem temperature_calls_until_first_failure {σ ε : Type} (w : multiWeatherProvider σ ε)
    (city : String) (s : σ) :
    (∃ n, n ≤ w.length ∧
      calls w city s = (List.range n).map (fun j => Call.mk j city
        (decide (j + 1 = n) && (multiWeatherProvider.temperature w city s).1.2.isSome)) ∧
      ((multiWeatherProvider.temperature w city s).1.2 = none → n = w.length) ∧
      ((multiWeatherProvider.temperature w city s).1.2 ≠ none → 0 < n)) ∧
    (∀ (pre post : List (weatherProvider σ ε)) (p : weatherProvider σ ε),
      w = pre ++ p :: post →
      (∀ q ∈ pre, ∀ s', (q city s').1.2 = none) → (∀ s', (p city s').1.2 ≠ none) →
      calls w city s
        = (List.range (pre.length + 1)).map (fun j => Call.mk j city (decide (j = pre.length)))) ∧
    ((∀ q ∈ w, ∀ s', (q city s').1.2 = none) →
      calls w city s = (List.range w.length).map (fun j => Call.mk j city false)) := by
  refine ⟨calls_spec w city s, ?_, ?_⟩
  · intro pre post p hw hpre hp
    subst hw
    rw [calls_eq_loop, rangeLoop_recorded_error city pre post p hpre hp]
    simp [List.range_eq_range']
  · intro hall
    rw [calls_eq_loop, rangeLoop_recorded_ok city w hall]
    simp [List.range_eq_range']

theorem temperature_calls_until_first_failure_witness :
    (∀ q ∈ [@succeeding Unit String (ofDecimal 300 1)],
        ∀ s', (q "london" s').1.2 = none) ∧
      (∀ s', (@failing Unit String (ofDecimal 280 1) "down" "london" s').1.2 ≠ none) ∧
      calls
        ([succeeding (ofDecimal 300 1)]
          ++ failing (ofDecimal 280 1) "down" :: [succeeding (ofDecimal 310 1)])
        "london" () = [⟨0, "london", false⟩, ⟨1, "london", true⟩] :=
  ⟨by simp [succeeding], by simp [failing],
   (temperature_calls_until_first_failure
      ([succeeding (ofDecimal 300 1)]
          ++ failing (ofDecimal 280 1) "down" :: [succeeding (ofDecimal 310 1)])
      "london" ()).2.1 [succeeding (ofDecimal 300 1)] [succeeding (ofDecimal 310 1)]
      (failing (ofDecimal 280 1) "down") rfl (by simp [succeeding]) (by simp [failing])⟩

/-- C8: every call `multiWeatherProvider.temperature(city)` makes to a provider
passes the city string the aggregator received, whatever that string is. -/
theorem temperature_passes_city {σ ε : Type} (w : multiWeatherProvider σ ε) (city : String)
    (s : σ) : ∀ c ∈ calls w city s, c.city = city := by
  obtain ⟨n, _, heq, _, _⟩ := calls_spec w city s
  intro c hc
  rw [heq] at hc
  obtain ⟨j, _, rfl⟩ := List.mem_map.mp hc
  rfl

theorem temperature_passes_city_witness :
    (⟨1, "", true⟩ : Call) ∈
        @calls Unit String
          [succeeding (ofDecimal 300 1), failing zero "down", succeeding zero] "" () ∧
      (⟨1, "", true⟩ : Call).city = "" :=
  ⟨by decide,
   temperature_passes_city
    [succeeding (ofDecimal 300 1), failing zero "down", succeeding zero] "" () ⟨1, "", true⟩
    (by decide)⟩

/-- C9: with no providers `multiWeatherProvider.temperature(city)` calls
nothing and returns no error; its value is the quotient of the accumulator
`0.0` by `float64(0)`, which is a NaN. -/
theorem temperature_no_providers {σ ε : Type} (city : String) (s : σ) :
    multiWeatherProvider.temperature ([] : multiWeatherProvider σ ε) city s
        = ((div zero (ofInt 0), none), s) ∧
      div zero (ofInt 0) = nan ∧
      calls ([] : multiWeatherProvider σ ε) city s = [] :=
  ⟨rfl, by decide, rfl⟩

/-! ## The two concrete providers -/

/-- C4: when the fetch succeeds and the body decodes to a document with
`current_observation.temp_c` equal to `c`, `weatherUnderground.temperature(city)`
returns no error and `c + 273.15`; for `c = 0.0` that is `273.15` and for
`c = 100.0` it is `373.15`. -/
theorem weatherUnderground_temperature_ok {σ ε β : Type} (env : World σ ε β)
    (w : weatherUnderground) (city : String) (s s1 s2 : σ) (resp : β) (d : conditions)
    (hget : env.httpGet
      ("http://api.wunderground.com/api/" ++ w.apiKey ++ "/conditions/q/" ++ city ++ ".json") s
        = (.ok resp, s1))
    (hdec : env.decodeConditions resp s1 = (.ok d, s2)) :
    (weatherUnderground.temperature env w city s).1
        = (add d.Observation.Celsius (ofDecimal 27315 100), none) ∧
      (d.Observation.Celsius = ofDecimal 0 1 →
        (weatherUnderground.temperature env w city s).1 = (ofDecimal 27315 100, none)) ∧
      (d.Observation.Celsius = ofDecimal 100 1 →
        (weatherUnderground.temperature env w city s).1 = (ofDecimal 37315 100, none)) := by
  have h : (weatherUnderground.temperature env w city s).1
      = (add d.Observation.Celsius (ofDecimal 27315 100), none) := by
    simp only [weatherUnderground.temperature, hget, hdec]
  refine ⟨h, ?_, ?_⟩
  · intro hc
    rw [h, hc]
    exact congrArg (fun v => (v, (none : Option ε)))
      (by decide : add (ofDecimal 0 1) (ofDecimal 27315 100) = ofDecimal 27315 100)
  · intro hc
    rw [h, hc]
    exact congrArg (fun v => (v, (none : Option ε)))
      (by decide : add (ofDecimal 100 1) (ofDecimal 27315 100) = ofDecimal 37315 100)

theorem weatherUnderground_temperature_ok_witness :
    (steadyWorld (ofDecimal 100 1)).httpGet
        ("http://api.wunderground.com/api/" ++ (weatherUnderground.mk "key").apiKey
          ++ "/conditions/q/" ++ "london" ++ ".json") () = (.ok "body", ()) ∧
      (steadyWorld (ofDecimal 100 1)).decodeConditions "body" ()
        = (.ok ⟨⟨ofDecimal 100 1⟩⟩, ()) ∧
      (weatherUnderground.temperature (steadyWorld (ofDecimal 100 1)) ⟨"key"⟩ "london" ()).1
        = (ofDecimal 37315 100, none) :=
  ⟨rfl, rfl,
   (weatherUnderground_temperature_ok (steadyWorld (ofDecimal 100 1)) ⟨"key"⟩ "london"
      () () () "body" ⟨⟨ofDecimal 100 1⟩⟩ rfl rfl).2.2 rfl⟩

/-- C5: `openWeatherMap.temperature(city)` and `weatherUnderground.temperature(city)`
return the error `err` exactly when the fetch fails with `err`, or the fetch
succeeds and decoding its body fails with `err`. -/
theorem provider_error_iff {σ ε β : Type} (env : World σ ε β) (wo : openWeatherMap)
    (wu : weatherUnderground) (city : String) (s : σ) (err : ε) :
    ((openWeatherMap.temperature env wo city s).1.2 = some err ↔
      ((env.httpGet ("http://api.openweathermap.org/data/2.5/weather?APPID=" ++ wo.apiKey
          ++ "&q=" ++ city) s).1 = .error err ∨
        ∃ resp, (env.httpGet ("http://api.openweathermap.org/data/2.5/weather?APPID="
            ++ wo.apiKey ++ "&q=" ++ city) s).1 = .ok resp ∧
          (env.decodeWeatherData resp
            (env.httpGet ("http://api.openweathermap.org/data/2.5/weather?APPID="
              ++ wo.apiKey ++ "&q=" ++ city) s).2).1 = .error err)) ∧
    ((weatherUnderground.temperature env wu city s).1.2 = some err ↔
      ((env.httpGet ("http://api.wunderground.com/api/" ++ wu.apiKey ++ "/conditions/q/"
          ++ city ++ ".json") s).1 = .error err ∨
        ∃ resp, (env.httpGet ("http://api.wunderground.com/api/" ++ wu.apiKey
            ++ "/conditions/q/" ++ city ++ ".json") s).1 = .ok resp ∧
          (env.decodeConditions resp
            (env.httpGet ("http://api.wunderground.com/api/" ++ wu.apiKey
              ++ "/conditions/q/" ++ city ++ ".json") s).2).1 = .error err)) := by
  constructor
  · unfold openWeatherMap.temperature
    rcases env.httpGet ("http://api.openweathermap.org/data/2.5/weather?APPID=" ++ wo.apiKey
        ++ "&q=" ++ city) s with ⟨r, s1⟩
    cases r with
    | error e => simp
    | ok resp =>
      rcases hd : env.decodeWeatherData resp s1 with ⟨r2, s2⟩
      cases r2 <;> simp [hd]
  · unfold weatherUnderground.temperature
    rcases env.httpGet ("http://api.wunderground.com/api/" ++ wu.apiKey ++ "/conditions/q/"
        ++ city ++ ".json") s with ⟨r, s1⟩
    cases r with
    | error e => simp
    | ok resp =>
      rcases hd : env.decodeConditions resp s1 with ⟨r2, s2⟩
      cases r2 <;> simp [hd]

/-- C6: when the fetch succeeds and the body decodes to a document with
`main.temp` equal to `k`, `openWeatherMap.temperature(city)` returns no error
and `k` itself. -/
theorem openWeatherMap_temperature_ok {σ ε β : Type} (env : World σ ε β)
    (w : openWeatherMap) (city : String) (s s1 s2 : σ) (resp : β) (d : weatherData)
    (hget : env.httpGet
      ("http://api.openweathermap.org/data/2.5/weather?APPID=" ++ w.apiKey ++ "&q=" ++ city) s
        = (.ok resp, s1))
    (hdec : env.decodeWeatherData resp s1 = (.ok d, s2)) :
    (openWeatherMap.temperature env w city s).1 = (d.Main.Kelvin, none) := by
  simp only [openWeatherMap.temperature, hget, hdec]

theorem openWeatherMap_temperature_ok_witness :
    (steadyWorld (ofDecimal 28315 100)).httpGet
        ("http://api.openweathermap.org/data/2.5/weather?APPID="
          ++ (openWeatherMap.mk "key").apiKey ++ "&q=" ++ "london") () = (.ok "body", ()) ∧
      (steadyWorld (ofDecimal 28315 100)).decodeWeatherData "body" ()
        = (.ok ⟨"London", ⟨ofDecimal 28315 100⟩⟩, ()) ∧
      (openWeatherMap.temperature (steadyWorld (ofDecimal 28315 100)) ⟨"key"⟩ "london" ()).1
        = (ofDecimal 28315 100, none) :=
  ⟨rfl, rfl,
   openWeatherMap_temperature_ok (steadyWorld (ofDecimal 28315 100)) ⟨"key"⟩ "london"
      () () () "body" ⟨"London", ⟨ofDecimal 28315 100⟩⟩ rfl rfl⟩

/-! ## The city in the request path -/

/-- An occurrence of a one-character separator found by `Index` is one of its
occurrences counted in the string. -/
theorem count_drop_of_Index (c : Char) :
    ∀ (s : List Char) (m : Nat), Index s [c] = some m →
      (s.drop (m + 1)).count c + 1 ≤ s.count c := by
  intro s
  induction s with
  | nil => intro m h; simp [Index, List.isPrefixOf] at h
  | cons a t ih =>
    intro m h
    unfold Index at h
    by_cases hp : ([c].isPrefixOf (a :: t)) = true
    · rw [if_pos hp] at h
      have hm : m = 0 := by simpa using h.symm
      subst hm
      have hca : c = a := by simpa [List.isPrefixOf] using hp
      subst hca
      simp
    · rw [if_neg hp] at h
      cases hi : Index t [c] with
      | none => rw [hi] at h; simp at h
      | some m' =>
        rw [hi] at h
        have hm : m = m' + 1 := by simpa using h.symm
        subst hm
        have := ih m' hi
        have hle : t.count c ≤ (a :: t).count c := List.count_le_count_cons _ _ _
        simp only [List.drop_succ_cons]
        omega

/-- The pieces cut at a one-character separator are at most one more than its
occurrences. -/
theorem genSplitLoop_length_le (c : Char) :
    ∀ (k : Nat) (s : List Char), (genSplitLoop [c] 0 k s).length ≤ s.count c + 1 := by
  intro k
  induction k with
  | zero => intro s; simp [genSplitLoop]
  | succ k ih =>
    intro s
    unfold genSplitLoop
    cases hi : Index s [c] with
    | none => simp
    | some m =>
      have h1 := count_drop_of_Index c s m hi
      have h2 := ih (s.drop (m + 1))
      simp only [List.length_cons, List.length_nil, Nat.zero_add] at h2 ⊢
      omega

/-- C10: for a request path `"/weather/" ++ rest`, `strings.SplitN(path, "/", 3)`
is `["", "weather", rest]`, so it has three elements and the element at index 2
is `rest`, slashes included; the handler `getWeather` does not panic on such a
path and answers with what the aggregator of its two providers returns for the
city `rest`. For a path with fewer than two `/` characters there is no element
at index 2, and the handler panics. -/
theorem getWeather_city {σ ε β : Type} (env : World σ ε β) (rest path : String) (s : σ) :
    SplitN ("/weather/" ++ rest) "/" 3 = ["", "weather", rest] ∧
      (SplitN ("/weather/" ++ rest) "/" 3).length = 3 ∧
      (SplitN ("/weather/" ++ rest) "/" 3)[2]? = some rest ∧
      getWeather env ("/weather/" ++ rest) s =
        (match multiWeatherProvider.temperature
            [openWeatherMap.temperature env ⟨env.getenv "OPEN_WEATHER_KEY"⟩,
             weatherUnderground.temperature env ⟨env.getenv "WUNDERGROUND_KEY"⟩] rest s with
          | ((_, some err), s1) => (Response.internalServerError err, s1)
          | ((temp, none), s1) =>
            (if temp.isNaNOrInf then Response.emptyBody else Response.json rest temp, s1)) ∧
      (path.data.count '/' < 2 →
        (SplitN path "/" 3)[2]? = none ∧ getWeather env path s = (.indexOutOfRange, s)) := by
  have hsplit : SplitN ("/weather/" ++ rest) "/" 3 = ["", "weather", rest] := by
    have hlen : ¬ ((String.utf8Len (['/', 'w', 'e', 'a', 't', 'h', 'e', 'r', '/'] ++ rest.data)
        : Int) + 1 < 3) := by
      have h9 : String.utf8Len ['/', 'w', 'e', 'a', 't', 'h', 'e', 'r', '/'] = 9 := by decide
      rw [String.utf8Len_append, h9]
      omega
    have hd : ("/weather/" : String).data = ['/', 'w', 'e', 'a', 't', 'h', 'e', 'r', '/'] := rfl
    have hs : ("/" : String).data = ['/'] := rfl
    unfold SplitN genSplit
    rw [String.data_append, hs, hd]
    simp only [show ¬ ((3 : Int) = 0) by decide, show ¬ (['/'] = ([] : List Char)) by simp,
      show ¬ ((3 : Int) < 0) by decide, hlen, if_false]
    simp [genSplitLoop, Index, List.isPrefixOf]
  have hsome : (SplitN ("/weather/" ++ rest) "/" 3)[2]? = some rest := by rw [hsplit]; rfl
  refine ⟨hsplit, by rw [hsplit]; rfl, hsome, ?_, ?_⟩
  · unfold getWeather
    simp only [hsome]
  intro hc
  have hnone : (SplitN path "/" 3)[2]? = none := by
    have hs : ("/" : String).data = ['/'] := rfl
    have hl : (SplitN path "/" 3).length ≤ 2 := by
      unfold SplitN genSplit
      rw [hs]
      simp only [List.length_map]
      have := genSplitLoop_length_le '/'
      simp only [show ¬ ((3 : Int) = 0) by decide, show ¬ (['/'] = ([] : List Char)) by simp,
        show ¬ ((3 : Int) < 0) by decide, if_false]
      split
      · exact le_trans (this _ _) (by omega)
      · exact le_trans (this _ _) (by omega)
    exact List.getElem?_eq_none hl
  refine ⟨hnone, ?_⟩
  unfold getWeather
  simp only [hnone]

theorem getWeather_city_witness :
    ("/weather" : String).data.count '/' < 2 ∧
      SplitN ("/weather/" ++ "london/uk") "/" 3 = ["", "weather", "london/uk"] ∧
      getWeather (steadyWorld (ofDecimal 300 1)) ("/weather/" ++ "london/uk") ()
        = (.json "london/uk" (ofDecimal 436575 1000), ()) ∧
      (SplitN "/weather" "/" 3)[2]? = none ∧
      getWeather (steadyWorld zero) "/weather" () = (.indexOutOfRange, ()) :=
  ⟨by decide, (getWeather_city (steadyWorld zero) "london/uk" "/weather" ()).1,
   (getWeather_city (steadyWorld (ofDecimal 300 1)) "london/uk" "/weather" ()).2.2.2.1.trans
     (by decide),
   ((getWeather_city (steadyWorld zero) "london/uk" "/weather" ()).2.2.2.2 (by decide)).1,
   ((getWeather_city (steadyWorld zero) "london/uk" "/weather" ()).2.2.2.2 (by decide)).2⟩

end Howistart
